import Mathlib

/-!
Shallow embedding of the `inf-jup-interface` repository (crate `jup-interface`),
verifying the natural-language specification against the code of
`src/jup-interface/src/lib.rs`, `clock.rs`, `consts.rs`, `err.rs`.

Machine integers (`u64`) are modelled as `Nat` with explicit saturation at
`2^64 - 1` where the source uses `saturating_add`.  Account keys and mints
(`[u8; 32]` / `Pubkey`) are modelled as lists of bytes.  Operations of the
external crate `inf1_std` (an out-of-scope collaborator per the spec) are
modelled as opaque parameters, or, where a claim depends on their behaviour,
as definitions modelled from the spec (marked `Modelled from the spec:`).
-/

namespace Inf

/-- A 32-byte account address (`Pubkey` / `[u8; 32]` in the source). -/
abbrev Pk := List Nat

/-- A mint address (same representation as `Pk`). -/
abbrev Mint := List Nat

/-- Raw account data bytes. -/
abbrev Bytes := List Nat

/-- `INF_MINT_ADDR` from `consts.rs`: base58 decode of
`5oVNBeEEQvYi1cX3ir8Dx5n1P7pdxydbGF2X4TxVusJm`. -/
def INF_MINT_ADDR : Mint :=
  [71, 87, 137, 159, 184, 190, 219, 162, 135, 120, 170, 205, 103, 229, 104, 231,
   52, 112, 204, 233, 11, 205, 83, 43, 108, 182, 24, 41, 118, 40, 130, 78]

/-- `WSOL_MINT_ADDR` from `consts.rs`: base58 decode of
`So11111111111111111111111111111111111111112`. -/
def WSOL_MINT_ADDR : Mint :=
  [6, 155, 136, 87, 254, 171, 129, 132, 251, 104, 127, 99, 70, 24, 192, 53,
   218, 196, 57, 220, 26, 235, 59, 85, 152, 160, 240, 0, 0, 0, 0, 1]

/-- `MSOL_MINT_ADDR` (re-exported from `sanctum_marinade_liquid_staking_core`):
base58 decode of `mSoLzYCxHdYgdzU16g5QSh3i5K3z3KZK7ytfqcJm7So`. -/
def MSOL_MINT_ADDR : Mint :=
  [11, 98, 186, 7, 79, 114, 44, 157, 65, 20, 242, 216, 247, 10, 0, 198,
   96, 2, 51, 123, 155, 249, 12, 135, 54, 87, 166, 210, 1, 219, 76, 128]

/-- `SYSVAR_CLOCK` (re-exported from `solido_legacy_core`): the designated
volatile/time address; base58 decode of
`SysvarC1ock11111111111111111111111111111111`. -/
def SYSVAR_CLOCK : Pk :=
  [6, 167, 213, 23, 24, 199, 116, 201, 40, 86, 99, 152, 105, 29, 94, 182,
   139, 94, 184, 163, 155, 75, 109, 92, 115, 85, 91, 33, 0, 0, 0, 0]

/-- Modelled from the spec: `POOL_STATE_ID` is an external constant of the
out-of-scope crate `inf1_ctl_core` (the pool descriptor address).  Its exact
byte value is opaque here; the only property used is that, being a
program-derived address, it is distinct from the clock sysvar and from the
asset-list address. -/
def POOL_STATE_ID : Pk :=
  [201, 1] ++ List.replicate 30 0

/-- Modelled from the spec: `LST_STATE_LIST_ID` is an external constant of the
out-of-scope crate `inf1_ctl_core` (the asset-list address).  Exact value
opaque; distinct from the clock sysvar and the pool descriptor address. -/
def LST_STATE_LIST_ID : Pk :=
  [201, 2] ++ List.replicate 30 0

/-- `is_epoch_affected_lst_mint` from `clock.rs`: a mint is epoch-affected
unless it is the INF LP mint, the Marinade mSOL mint, or the wrapped-native
wSOL mint. -/
def is_epoch_affected_lst_mint (mint : Mint) : Bool :=
  if mint = INF_MINT_ADDR ∨ mint = MSOL_MINT_ADDR ∨ mint = WSOL_MINT_ADDR then
    false
  else
    true

/-- `u64::MAX`. -/
def U64_MAX : Nat := 2 ^ 64 - 1

/-- `u64::saturating_add`. -/
def satAdd (a b : Nat) : Nat := min (a + b) U64_MAX

/-- `SwapMode` from `jupiter_amm_interface`. -/
inductive SwapMode
  | exactIn
  | exactOut
deriving DecidableEq, Repr

/-- `TradeLimitTy` from `inf1_std`. -/
inductive TradeLimitTy
  | exactIn
  | exactOut
deriving DecidableEq, Repr

/-- `swap_mode_to_trade_limit_ty` from `lib.rs`. -/
def swap_mode_to_trade_limit_ty : SwapMode → TradeLimitTy
  | .exactIn => .exactIn
  | .exactOut => .exactOut

/-! ## Quote-side model (staleness gate and fee post-processing)

`InfAmm::quote` (`lib.rs` lines 310-384) first runs the epoch staleness gate
over `[input_mint, output_mint]`, then delegates to the trade engine
(`InfStd::quote_trade`, an opaque collaborator) and post-processes the result
with `to_jup_quote`. -/

/-- The `as_sol_val_calc()` view of a Calculator, keeping exactly the fields
the quote staleness gate reads: `computed_in_epoch` for Lido,
`last_update_epoch` for the SPL family, and nothing for the
clock-independent Marinade and wSOL variants. -/
inductive QCalc
  | lido (computedInEpoch : Nat)
  | marinade
  | sanctumSpl (lastUpdateEpoch : Nat)
  | sanctumSplMulti (lastUpdateEpoch : Nat)
  | spl (lastUpdateEpoch : Nat)
  | wsol
deriving DecidableEq, Repr

/-- A registry entry for a mint.  `asSolValCalc = none` models
`SvcAgStd::as_sol_val_calc()` returning `None` (calculator exists but its
underlying data has not been fetched). -/
structure QCalcEntry where
  asSolValCalc : Option QCalc
deriving DecidableEq, Repr

/-- The stale-calculator error payloads produced by the gate:
`LidoCalcErr::NotUpdated` and `SplCalcErr::NotUpdated` (the latter used for
all three SPL-family variants, see `lib.rs` lines 352-359). -/
inductive StaleErr
  | lidoNotUpdated
  | splNotUpdated
deriving DecidableEq, Repr

/-- The errors the quote path can surface. `swapQuoteInpCalc` is
`InfErr::SwapQuote(SwapQuoteErr::InpCalc(..))`, `missingSvcData` is
`InfErr::MissingSvcData { mint }`; `engineErr` stands for the opaque error
taxonomy of the external trade engine; `decimalErr` is the
`anyhow!("Decimal err")` percentage-conversion failure of `to_jup_quote`. -/
inductive QErr
  | missingSvcData (mint : Mint)
  | swapQuoteInpCalc (e : StaleErr)
  | decimalErr
  | engineErr (n : Nat)
deriving DecidableEq, Repr

/-- The state read by `InfAmm::quote`: the Calculator registry
(`inner.lst_calcs`, looked up through `try_get_lst_svc`) and the shared
epoch counter (`current_epoch`, an `AtomicU64` read with relaxed ordering;
modelled as a plain value since this is a single quote call). -/
structure QuoteState where
  lstCalcs : Mint → Option QCalcEntry
  currentEpoch : Nat

/-- One iteration of the staleness-gate loop of `InfAmm::quote`
(`lib.rs` lines 323-363) for a single mint.
The absent-calculator branch (`try_get_lst_svc` failing) is modelled from
the spec: "look up its Calculator; if absent, fail with
`MissingCalculatorData`" (the same error the `None` arm of
`as_sol_val_calc` returns in the source, line 361). -/
def check_epoch_mint (st : QuoteState) (mint : Mint) : Except QErr Unit :=
  if is_epoch_affected_lst_mint mint = false then .ok ()
  else
    match st.lstCalcs mint with
    | none => .error (.missingSvcData mint)
    | some entry =>
      match entry.asSolValCalc with
      | none => .error (.missingSvcData mint)
      | some c =>
        match c with
        | .marinade => .ok ()
        | .wsol => .ok ()
        | .lido e =>
          if e < st.currentEpoch then
            .error (.swapQuoteInpCalc .lidoNotUpdated)
          else .ok ()
        | .sanctumSpl e =>
          if e < st.currentEpoch then
            .error (.swapQuoteInpCalc .splNotUpdated)
          else .ok ()
        | .sanctumSplMulti e =>
          if e < st.currentEpoch then
            .error (.swapQuoteInpCalc .splNotUpdated)
          else .ok ()
        | .spl e =>
          if e < st.currentEpoch then
            .error (.swapQuoteInpCalc .splNotUpdated)
          else .ok ()

/-- The raw quote produced by the trade engine (`inf1_std::quote::Quote`):
input amount, output amount, LP fee, protocol fee, and the two mints. -/
structure RawQuote where
  inp : Nat
  out : Nat
  lpFee : Nat
  protocolFee : Nat
  inpMint : Mint
  outMint : Mint
deriving DecidableEq, Repr

/-- The Jupiter-facing quote (`jupiter_amm_interface::Quote`); the fee
percentage is modelled as an exact rational (the source computes the same
ratio in `f64` and converts with `Decimal::from_f64_retain`, which for two
`u64` operands is non-`None` exactly when the ratio is finite, i.e. when the
denominator is nonzero). -/
structure JQuote where
  inAmount : Nat
  outAmount : Nat
  feeAmount : Nat
  feeMint : Mint
  feePct : ℚ
deriving DecidableEq, Repr

/-- `to_jup_quote` from `lib.rs` lines 556-584:
`fee_amount = lp_fee.saturating_add(protocol_fee)`; the denominator is the
input amount when the fee is denominated in the input mint, else
`out_amount.saturating_add(fee_amount)`; a non-representable percentage
(denominator zero, hence a non-finite `f64` ratio) yields the distinct
`Decimal err` failure. -/
def to_jup_quote (feeMint : Mint) (q : RawQuote) : Except QErr JQuote :=
  let feeAmount := satAdd q.lpFee q.protocolFee
  let denom := if feeMint = q.inpMint then q.inp else satAdd q.out feeAmount
  if denom = 0 then .error .decimalErr
  else
    .ok { inAmount := q.inp, outAmount := q.out, feeAmount := feeAmount,
          feeMint := feeMint, feePct := (feeAmount : ℚ) / (denom : ℚ) }

/-- `InfAmm::quote` (`lib.rs` lines 310-384): staleness gate on the input
mint, then on the output mint, then delegation to the opaque trade engine
(`InfStd::quote_trade`, passed here as the parameter `engine`, returning the
fee mint together with the raw quote as `Trade::*(q) => (q.fee_mint(), q.0)`)
and post-processing with `to_jup_quote`. -/
def quote (st : QuoteState)
    (engine : Mint → Mint → Nat → TradeLimitTy → Except QErr (Mint × RawQuote))
    (inputMint outputMint : Mint) (amount : Nat) (swapMode : SwapMode) :
    Except QErr JQuote :=
  match check_epoch_mint st inputMint with
  | .error e => .error e
  | .ok _ =>
    match check_epoch_mint st outputMint with
    | .error e => .error e
    | .ok _ =>
      match engine inputMint outputMint amount
          (swap_mode_to_trade_limit_ty swapMode) with
      | .error e => .error e
      | .ok p => to_jup_quote p.1 p.2

/-- The Calculator resolved for a mint: registry lookup followed by
`as_sol_val_calc()`. -/
def resolveCalc (st : QuoteState) (mint : Mint) : Option QCalc :=
  (st.lstCalcs mint).bind QCalcEntry.asSolValCalc

/-- The last-computed epoch marker of a calculator variant
(`exchange_rate.computed_in_epoch` for Lido, `last_update_epoch` for the SPL
family); `none` for the epoch-immune Marinade and wSOL variants. -/
def epochMarker : QCalc → Option Nat
  | .lido e => some e
  | .sanctumSpl e => some e
  | .sanctumSplMulti e => some e
  | .spl e => some e
  | .marinade => none
  | .wsol => none

/-! ## Update-side model

`InfAmm::update` (`lib.rs` lines 233-308), `InfAmm::get_accounts_to_update`
(lines 196-231) and `InfAmm::new` (lines 111-161).  The operations of the
external collaborator crate `inf1_std` are modelled from the spec as pure
functions supplied through a `Collab` bundle. -/

/-- The calculator backend kinds (`SvcAg` variant tags). -/
inductive SvcKind
  | lido
  | marinade
  | sanctumSpl
  | sanctumSplMulti
  | spl
  | wsol
deriving DecidableEq, Repr

/-- Opaque backend-specific exchange-rate payload of a calculator. -/
abbrev CalcData := List Nat

/-- A Calculator Registry entry on the update side: its backend kind, the
identity part fixed at creation (the backend account addresses, e.g. the
stake pool address, abbreviated to one key here), and its exchange-rate
data, replaced wholesale on each refresh. -/
structure UCalc where
  kind : SvcKind
  ident : Pk
  data : CalcData
deriving DecidableEq, Repr

/-- Error taxonomy of the update path (`InfErr` and `UpdateErr` from
`inf1_std`, as formatted in `err.rs`): missing account, account
deserialization failure, missing SPL pool data for a mint, unknown calculator
backend, plus a stand-in for the remaining opaque variants. -/
inductive UErr
  | missingAcc (pk : Pk)
  | accDeser (pk : Pk)
  | missingSplData (mint : Mint)
  | unknownSvc (pk : Pk)
  | otherErr (n : Nat)
deriving DecidableEq, Repr

/-- Whether an error is `InfErr::MissingSplData { .. }` (the
`matches!(error, InfErr::MissingSplData { .. })` test of `lib.rs`
lines 150 and 271). -/
def UErr.isMissingSplData : UErr → Bool
  | .missingSplData _ => true
  | _ => false

/-- One Asset List entry (`LstState`): its mint plus the remaining fields,
opaque for this model. -/
structure LstState where
  mint : Mint
  rest : Bytes
deriving DecidableEq, Repr

/-- The parsed Pool Descriptor (`PoolState`): the LP token mint plus the
remaining fields, opaque for this model. -/
structure Pool where
  lpTokenMint : Mint
  rest : Bytes
deriving DecidableEq, Repr

/-- The Pricing Scheme variant tag (`PricingAg`: flat-fee or flat-slab). -/
inductive PricingTag
  | flatFee
  | flatSlab
deriving DecidableEq, Repr

/-- Opaque per-mint fee-account state of the Pricing Scheme. -/
abbrev PricingData := List Nat

/-- The fetched account map handed to `update` (`AccountMap`), as a partial
map from address to account bytes. -/
abbrev Fetched := Pk → Option Bytes

/-- The collaborator bundle: the operations `InfAmm` delegates to the
external crate `inf1_std`.  Each is modelled from the spec as a pure
function of its arguments:
- `parsePool`, `parseLstList`, `parseSupply`: deserializers behind
  `update_pool`, `LstStatePackedList::of_acc_data` and
  `update_lp_token_supply` ("Mutated wholesale ... from one fetched account";
  "Replaced wholesale on each successful list-account fetch");
- `pricingUpdate`: `pricing.update_all` — the per-mint fee-account state a
  pricing variant derives from the fetched bytes ("refreshed once per cycle");
- `pricingAccs`: `pricing.accounts_to_update_all`;
- `reserveVal`: the cached reserve value `InfStd::update_lst_reserves`
  derives for one asset from the fetched bytes;
- `createCalc`: the creation path of `try_get_or_init_lst_svc_static`
  (fails with `MissingSplData` when the SPL pool map lacks the mint, with
  `UnknownSvc` for an unknown backend; reads no fetched accounts);
- `svcAccs`: the backend account addresses a calculator's refresh reads
  (`accounts_to_update_lst` / `UpdateSvc`);
- `mkData`: the exchange-rate data a refresh derives from those accounts'
  bytes (wholesale replacement, `none` = deserialization failure). -/
structure Collab where
  parsePool : Bytes → Option Pool
  parseLstList : Bytes → Option (List LstState)
  parseSupply : Bytes → Option Nat
  pricingUpdate : PricingTag → List Mint → Fetched → Except UErr PricingData
  pricingAccs : PricingTag → List Mint → List Pk
  reserveVal : LstState → Fetched → Except UErr Nat
  createCalc : LstState → Except UErr UCalc
  svcAccs : SvcKind → Pk → List Pk
  mkData : SvcKind → Pk → List Bytes → Option CalcData

/-- The adapter state owned by `InfAmm` (`InfStd` fields relevant here). -/
structure InfState where
  pool : Pool
  lstStateListData : Bytes
  lpTokenSupply : Nat
  pricingTag : PricingTag
  pricingData : PricingData
  lstCalcs : Mint → Option UCalc
  lstReserves : Mint → Option Nat

/-- Look up one account in the fetched map; absence is the
`MissingAcc` / `UpdateErr::AccMissing` failure. -/
def getAcc (fetched : Fetched) (pk : Pk) : Except UErr Bytes :=
  match fetched pk with
  | some b => .ok b
  | none => .error (.missingAcc pk)

/-- The account addresses one calculator refresh reads during `update`,
per the dispatch of `lib.rs` lines 280-303: the time-bound Lido and
SPL-family variants use the `update_svc_no_clock` variant, which omits the
clock sysvar from the accounts it reads; the clock-independent Marinade and
wSOL variants use the normal `update_svc`. -/
def refreshKeys (cb : Collab) (kind : SvcKind) (ident : Pk) : List Pk :=
  match kind with
  | .lido => (cb.svcAccs .lido ident).filter (· ≠ SYSVAR_CLOCK)
  | .sanctumSpl => (cb.svcAccs .sanctumSpl ident).filter (· ≠ SYSVAR_CLOCK)
  | .sanctumSplMulti =>
    (cb.svcAccs .sanctumSplMulti ident).filter (· ≠ SYSVAR_CLOCK)
  | .spl => (cb.svcAccs .spl ident).filter (· ≠ SYSVAR_CLOCK)
  | .marinade => cb.svcAccs .marinade ident
  | .wsol => cb.svcAccs .wsol ident

/-- Read a list of accounts from the fetched map, failing with
`MissingAcc` on the first absent one. -/
def readAccs (fetched : Fetched) : List Pk → Except UErr (List Bytes)
  | [] => .ok []
  | pk :: rest =>
    match getAcc fetched pk with
    | .error e => .error e
    | .ok b =>
      match readAccs fetched rest with
      | .error e => .error e
      | .ok bs => .ok (b :: bs)

/-- One calculator refresh (`update_svc_no_clock` / `update_svc`): read the
backend accounts from the fetched map, then replace the exchange-rate data
wholesale; a deserialization failure is `AccDeser`. -/
def refreshSvc (cb : Collab) (fetched : Fetched) (kind : SvcKind) (ident : Pk) :
    Except UErr CalcData :=
  match readAccs fetched (refreshKeys cb kind ident) with
  | .error e => .error e
  | .ok ds =>
    match cb.mkData kind ident ds with
    | some d => .ok d
    | none => .error (.accDeser ident)

/-- Pointwise map update used for the registry and reserve maps. -/
def upd {α : Type} (f : Mint → Option α) (k : Mint) (v : Option α) :
    Mint → Option α :=
  fun m => if m = k then v else f m

/-- The per-asset stage of `InfAmm::update` (`lib.rs` lines 262-305), in
list order: (a) update the asset's cached reserve value; (b) get-or-create
its Calculator — a `MissingSplData` failure removes the asset's Calculator
from the registry and continues with the remaining assets, any other failure
aborts; (c) refresh the Calculator (no-clock variant for time-bound
backends). -/
def updateAssets (cb : Collab) (fetched : Fetched) :
    List LstState → (Mint → Option UCalc) → (Mint → Option Nat) →
    Except UErr ((Mint → Option UCalc) × (Mint → Option Nat))
  | [], calcs, reserves => .ok (calcs, reserves)
  | s :: rest, calcs, reserves =>
    match cb.reserveVal s fetched with
    | .error e => .error e
    | .ok v =>
      let reserves' := upd reserves s.mint (some v)
      match calcs s.mint with
      | some c =>
        match refreshSvc cb fetched c.kind c.ident with
        | .error e => .error e
        | .ok d =>
          updateAssets cb fetched rest
            (upd calcs s.mint (some ⟨c.kind, c.ident, d⟩)) reserves'
      | none =>
        match cb.createCalc s with
        | .error e =>
          if e.isMissingSplData then
            updateAssets cb fetched rest (upd calcs s.mint none) reserves'
          else .error e
        | .ok c =>
          match refreshSvc cb fetched c.kind c.ident with
          | .error e => .error e
          | .ok d =>
            updateAssets cb fetched rest
              (upd calcs s.mint (some ⟨c.kind, c.ident, d⟩)) reserves'

/-- `InfAmm::update` (`lib.rs` lines 233-308), strictly in source order:
1. `update_pool`: fetch and deserialize the pool descriptor;
2. `update_lst_state_list`: fetch the asset-list bytes;
3. `update_lp_token_supply`: fetch and deserialize the LP-token-mint
   account for the supply figure;
4. re-parse the stored asset-list bytes
   (`LstStatePackedList::of_acc_data`, failing with
   `AccDeser(LST_STATE_LIST_ID)`);
5. `pricing.update_all` over the full current mint set;
6. the per-asset stage `updateAssets`. -/
def update (cb : Collab) (fetched : Fetched) (st : InfState) :
    Except UErr InfState :=
  match getAcc fetched POOL_STATE_ID with
  | .error e => .error e
  | .ok poolBytes =>
    match cb.parsePool poolBytes with
    | none => .error (.accDeser POOL_STATE_ID)
    | some pool =>
      match getAcc fetched LST_STATE_LIST_ID with
      | .error e => .error e
      | .ok listBytes =>
        match getAcc fetched pool.lpTokenMint with
        | .error e => .error e
        | .ok supplyBytes =>
          match cb.parseSupply supplyBytes with
          | none => .error (.accDeser pool.lpTokenMint)
          | some supply =>
            match cb.parseLstList listBytes with
            | none => .error (.accDeser LST_STATE_LIST_ID)
            | some states =>
              match cb.pricingUpdate st.pricingTag (states.map LstState.mint)
                  fetched with
              | .error e => .error e
              | .ok pdata =>
                match updateAssets cb fetched states st.lstCalcs
                    st.lstReserves with
                | .error e => .error e
                | .ok cr =>
                  .ok { pool := pool, lstStateListData := listBytes,
                        lpTokenSupply := supply,
                        pricingTag := st.pricingTag, pricingData := pdata,
                        lstCalcs := cr.1, lstReserves := cr.2 }

/-- Modelled from the spec: `InfStd::accounts_to_update_lst` of the external
crate `inf1_std` — for an asset whose Calculator exists, the calculator's
backend-specific account addresses; errs (here `none`) when the asset has no
Calculator yet ("assets without a Calculator yet contribute nothing"). -/
def accounts_to_update_lst (cb : Collab) (calcs : Mint → Option UCalc)
    (s : LstState) : Option (List Pk) :=
  (calcs s.mint).map fun c => cb.svcAccs c.kind c.ident

/-- `InfAmm::get_accounts_to_update` (`lib.rs` lines 196-231): the three
fixed addresses (pool descriptor, asset list, LP token mint), then the
Pricing Scheme's refresh addresses over the full current mint set, then each
existing Calculator's account addresses with the clock sysvar filtered out.
An unparseable asset list is silently treated as empty
(`unwrap_or_default`). -/
def get_accounts_to_update (cb : Collab) (st : InfState) : List Pk :=
  let lstStates := (cb.parseLstList st.lstStateListData).getD []
  [POOL_STATE_ID, LST_STATE_LIST_ID, st.pool.lpTokenMint]
    ++ cb.pricingAccs st.pricingTag (lstStates.map LstState.mint)
    ++ (lstStates.filterMap fun s =>
        (accounts_to_update_lst cb st.lstCalcs s).map
          (List.filter (· ≠ SYSVAR_CLOCK))).flatten

/-- Errors of `InfAmm::new` (`lib.rs` lines 111-161): the non-asset-list
keyed account rejection, a failure of `InfStd::new`, the
`LstStatePackedList::of_acc_data` context failure, and a non-skippable
per-asset pre-initialization failure. -/
inductive NewErr
  | incorrectKeyedAccount
  | innerNew (e : UErr)
  | lstListDeser
  | preInit (e : UErr)
deriving DecidableEq, Repr

/-- The calculator pre-initialization loop of `InfAmm::new` (`lib.rs`
lines 140-158): for each listed asset, get-or-create its Calculator;
a `MissingSplData` failure is skipped, any other failure aborts. -/
def preInitCalcs (cb : Collab) :
    List LstState → (Mint → Option UCalc) →
    Except UErr (Mint → Option UCalc)
  | [], calcs => .ok calcs
  | s :: rest, calcs =>
    match calcs s.mint with
    | some _ => preInitCalcs cb rest calcs
    | none =>
      match cb.createCalc s with
      | .ok c => preInitCalcs cb rest (upd calcs s.mint (some c))
      | .error e =>
        if e.isMissingSplData then preInitCalcs cb rest calcs
        else .error e

/-- `InfAmm::new` (`lib.rs` lines 111-161): reject any keyed account whose
key is not the asset-list address; construct the inner `InfStd` state (an
opaque collaborator, passed as `innerNew`); parse the asset list; then
pre-initialize the calculators, skipping per-asset `MissingSplData`
failures. -/
def newInfAmm (cb : Collab) (innerNew : Bytes → Except UErr InfState)
    (key : Pk) (data : Bytes) : Except NewErr InfState :=
  if key ≠ LST_STATE_LIST_ID then .error .incorrectKeyedAccount
  else
    match innerNew data with
    | .error e => .error (.innerNew e)
    | .ok st =>
      match cb.parseLstList data with
      | none => .error .lstListDeser
      | some states =>
        match preInitCalcs cb states st.lstCalcs with
        | .error e => .error (.preInit e)
        | .ok calcs => .ok { st with lstCalcs := calcs }

/-! ## Helper lemmas -/

/-- The gate step succeeds on any mint that is not epoch-affected. -/
theorem check_epoch_mint_not_affected (st : QuoteState) (m : Mint)
    (h : is_epoch_affected_lst_mint m = false) :
    check_epoch_mint st m = .ok () := by
  simp [check_epoch_mint, h]

/-- When both gate steps succeed, `quote` is the trade engine's result
post-processed by `to_jup_quote`. -/
theorem quote_of_gate_ok (st : QuoteState)
    (engine : Mint → Mint → Nat → TradeLimitTy → Except QErr (Mint × RawQuote))
    (inp out : Mint) (amount : Nat) (mode : SwapMode)
    (hin : check_epoch_mint st inp = .ok ())
    (hout : check_epoch_mint st out = .ok ()) :
    quote st engine inp out amount mode =
      match engine inp out amount (swap_mode_to_trade_limit_ty mode) with
      | .error e => .error e
      | .ok p => to_jup_quote p.1 p.2 := by
  simp [quote, hin, hout]

/-- If the input-side gate step fails, `quote` returns that error. -/
theorem quote_of_inp_err (st : QuoteState)
    (engine : Mint → Mint → Nat → TradeLimitTy → Except QErr (Mint × RawQuote))
    (inp out : Mint) (amount : Nat) (mode : SwapMode) (e : QErr)
    (h : check_epoch_mint st inp = .error e) :
    quote st engine inp out amount mode = .error e := by
  simp [quote, h]

/-- If the input-side gate step passes and the output-side one fails,
`quote` returns the output side's error. -/
theorem quote_of_out_err (st : QuoteState)
    (engine : Mint → Mint → Nat → TradeLimitTy → Except QErr (Mint × RawQuote))
    (inp out : Mint) (amount : Nat) (mode : SwapMode) (e : QErr)
    (hin : check_epoch_mint st inp = .ok ())
    (h : check_epoch_mint st out = .error e) :
    quote st engine inp out amount mode = .error e := by
  simp [quote, hin, h]

/-- A stale resolved calculator (epoch marker strictly behind the counter)
makes the gate step fail with the generic input-side calculation error. -/
theorem check_epoch_mint_stale (st : QuoteState) (m : Mint) (c : QCalc)
    (k : Nat) (haff : is_epoch_affected_lst_mint m = true)
    (hc : resolveCalc st m = some c) (hk : epochMarker c = some k)
    (hlt : k < st.currentEpoch) :
    ∃ se, check_epoch_mint st m = .error (.swapQuoteInpCalc se) := by
  unfold resolveCalc at hc
  cases hcal : st.lstCalcs m with
  | none => rw [hcal] at hc; simp at hc
  | some entry =>
    rw [hcal] at hc
    simp only [Option.some_bind] at hc
    cases c with
    | lido e =>
      cases hk; exact ⟨.lidoNotUpdated, by simp [check_epoch_mint, haff, hcal, hc, hlt]⟩
    | sanctumSpl e =>
      cases hk; exact ⟨.splNotUpdated, by simp [check_epoch_mint, haff, hcal, hc, hlt]⟩
    | sanctumSplMulti e =>
      cases hk; exact ⟨.splNotUpdated, by simp [check_epoch_mint, haff, hcal, hc, hlt]⟩
    | spl e =>
      cases hk; exact ⟨.splNotUpdated, by simp [check_epoch_mint, haff, hcal, hc, hlt]⟩
    | marinade => simp [epochMarker] at hk
    | wsol => simp [epochMarker] at hk

/-- A resolved calculator whose epoch marker is at or past the counter (or
which has no marker at all) passes the gate step. -/
theorem check_epoch_mint_fresh (st : QuoteState) (m : Mint) (c : QCalc)
    (hc : resolveCalc st m = some c)
    (hk : ∀ k, epochMarker c = some k → st.currentEpoch ≤ k) :
    check_epoch_mint st m = .ok () := by
  by_cases haff : is_epoch_affected_lst_mint m = false
  · exact check_epoch_mint_not_affected st m haff
  · unfold resolveCalc at hc
    rw [Bool.not_eq_false] at haff
    cases hcal : st.lstCalcs m with
    | none => rw [hcal] at hc; simp at hc
    | some entry =>
      rw [hcal] at hc
      simp only [Option.some_bind] at hc
      cases c with
      | lido e =>
        have := hk e rfl
        simp [check_epoch_mint, haff, hcal, hc, Nat.not_lt.mpr this]
      | sanctumSpl e =>
        have := hk e rfl
        simp [check_epoch_mint, haff, hcal, hc, Nat.not_lt.mpr this]
      | sanctumSplMulti e =>
        have := hk e rfl
        simp [check_epoch_mint, haff, hcal, hc, Nat.not_lt.mpr this]
      | spl e =>
        have := hk e rfl
        simp [check_epoch_mint, haff, hcal, hc, Nat.not_lt.mpr this]
      | marinade => simp [check_epoch_mint, haff, hcal, hc]
      | wsol => simp [check_epoch_mint, haff, hcal, hc]

/-- An epoch-affected mint with no resolvable calculator makes the gate
step fail with the missing-calculator-data error for that mint. -/
theorem check_epoch_mint_missing (st : QuoteState) (m : Mint)
    (haff : is_epoch_affected_lst_mint m = true)
    (hc : resolveCalc st m = none) :
    check_epoch_mint st m = .error (.missingSvcData m) := by
  unfold resolveCalc at hc
  cases hcal : st.lstCalcs m with
  | none => simp [check_epoch_mint, haff, hcal]
  | some entry =>
    rw [hcal] at hc
    simp only [Option.some_bind] at hc
    simp [check_epoch_mint, haff, hcal, hc]

/-! ## C1: the quote staleness gate -/

/-- C1: for a quote whose input or output mint is epoch-affected:
if the mint's resolved Calculator has an epoch marker strictly behind the
shared counter, `quote` fails with a stale-calculator error always wrapped
as the generic input-side calculation error (`SwapQuoteErr::InpCalc`),
whether the stale mint was the input (first conjunct) or the output (second
conjunct); if every epoch-affected side's marker is at or past the counter,
the gate passes and `quote` proceeds to the trade engine (third conjunct);
and an epoch-affected mint with no Calculator fails with the
missing-calculator-data error for that mint (last two conjuncts). -/
theorem quote_staleness_gate (st : QuoteState)
    (engine : Mint → Mint → Nat → TradeLimitTy → Except QErr (Mint × RawQuote))
    (inp out : Mint) (amount : Nat) (mode : SwapMode) :
    (is_epoch_affected_lst_mint inp = true →
      ∀ c k, resolveCalc st inp = some c → epochMarker c = some k →
        k < st.currentEpoch →
        ∃ se, quote st engine inp out amount mode =
          .error (.swapQuoteInpCalc se)) ∧
    (check_epoch_mint st inp = .ok () →
      is_epoch_affected_lst_mint out = true →
      ∀ c k, resolveCalc st out = some c → epochMarker c = some k →
        k < st.currentEpoch →
        ∃ se, quote st engine inp out amount mode =
          .error (.swapQuoteInpCalc se)) ∧
    ((∀ m, (m = inp ∨ m = out) → is_epoch_affected_lst_mint m = true →
        ∃ c, resolveCalc st m = some c ∧
          ∀ k, epochMarker c = some k → st.currentEpoch ≤ k) →
      quote st engine inp out amount mode =
        match engine inp out amount (swap_mode_to_trade_limit_ty mode) with
        | .error e => .error e
        | .ok p => to_jup_quote p.1 p.2) ∧
    (is_epoch_affected_lst_mint inp = true → resolveCalc st inp = none →
      quote st engine inp out amount mode = .error (.missingSvcData inp)) ∧
    (check_epoch_mint st inp = .ok () →
      is_epoch_affected_lst_mint out = true → resolveCalc st out = none →
      quote st engine inp out amount mode = .error (.missingSvcData out)) := by
  refine ⟨?_, ?_, ?_, ?_, ?_⟩
  · intro haff c k hc hk hlt
    obtain ⟨se, hse⟩ := check_epoch_mint_stale st inp c k haff hc hk hlt
    exact ⟨se, quote_of_inp_err st engine inp out amount mode _ hse⟩
  · intro hin haff c k hc hk hlt
    obtain ⟨se, hse⟩ := check_epoch_mint_stale st out c k haff hc hk hlt
    exact ⟨se, quote_of_out_err st engine inp out amount mode _ hin hse⟩
  · intro hall
    have hstep : ∀ m, (m = inp ∨ m = out) →
        check_epoch_mint st m = .ok () := by
      intro m hm
      by_cases haff : is_epoch_affected_lst_mint m = false
      · exact check_epoch_mint_not_affected st m haff
      · rw [Bool.not_eq_false] at haff
        obtain ⟨c, hc, hk⟩ := hall m hm haff
        exact check_epoch_mint_fresh st m c hc hk
    exact quote_of_gate_ok st engine inp out amount mode
      (hstep inp (Or.inl rfl)) (hstep out (Or.inr rfl))
  · intro haff hc
    exact quote_of_inp_err st engine inp out amount mode _
      (check_epoch_mint_missing st inp haff hc)
  · intro hin haff hc
    exact quote_of_out_err st engine inp out amount mode _ hin
      (check_epoch_mint_missing st out haff hc)

/-- Witness for C1 at concrete inputs: with a registry holding a stale SPL
calculator (marker 3) for the epoch-affected mint `[9]` and nothing for the
epoch-affected mint `[7]`, under epoch counter 5: a quote whose input mint
is `[9]` fails with the input-side stale error, and a quote whose input
mint is `[7]` fails with the missing-calculator-data error. -/
theorem quote_staleness_gate_witness :
    (∃ se, quote
        ⟨fun m => if m = [9] then some ⟨some (.spl 3)⟩ else none, 5⟩
        (fun _ _ _ _ => .error (.engineErr 0)) [9] [8] 100 .exactIn =
      .error (.swapQuoteInpCalc se)) ∧
    quote ⟨fun m => if m = [9] then some ⟨some (.spl 3)⟩ else none, 5⟩
        (fun _ _ _ _ => .error (.engineErr 0)) [7] [8] 100 .exactIn =
      .error (.missingSvcData [7]) :=
  ⟨(quote_staleness_gate
      ⟨fun m => if m = [9] then some ⟨some (.spl 3)⟩ else none, 5⟩
      (fun _ _ _ _ => .error (.engineErr 0)) [9] [8] 100 .exactIn).1
      (by decide) (.spl 3) 3 (by decide) (by decide) (by decide),
   (quote_staleness_gate
      ⟨fun m => if m = [9] then some ⟨some (.spl 3)⟩ else none, 5⟩
      (fun _ _ _ _ => .error (.engineErr 0)) [7] [8] 100 .exactIn).2.2.2.1
      (by decide) (by decide)⟩

/-! ## C2: the address-set builder output -/

/-- C2: for every adapter state, the `get_accounts_to_update` output
contains the pool descriptor address, the asset-list address and the
LP-token-mint address; and — the clock sysvar being filtered out of every
per-asset calculator contribution, the LP token mint being an actual mint,
and the opaque pricing collaborator never listing the clock (per the spec,
the volatile/time address "is never part of a routine fetch set") — the
output never contains the clock sysvar. -/
theorem get_accounts_to_update_spec (cb : Collab) (st : InfState) :
    POOL_STATE_ID ∈ get_accounts_to_update cb st ∧
    LST_STATE_LIST_ID ∈ get_accounts_to_update cb st ∧
    st.pool.lpTokenMint ∈ get_accounts_to_update cb st ∧
    (SYSVAR_CLOCK ∉ cb.pricingAccs st.pricingTag
        (((cb.parseLstList st.lstStateListData).getD []).map LstState.mint) →
      st.pool.lpTokenMint ≠ SYSVAR_CLOCK →
      SYSVAR_CLOCK ∉ get_accounts_to_update cb st) := by
  refine ⟨?_, ?_, ?_, ?_⟩
  · simp [get_accounts_to_update]
  · simp [get_accounts_to_update]
  · simp [get_accounts_to_update]
  · intro hpr hlp hmem
    simp only [get_accounts_to_update] at hmem
    rcases List.mem_append.mp hmem with h12 | hflat
    · rcases List.mem_append.mp h12 with hfix | hppr
      · simp only [List.mem_cons, List.not_mem_nil, or_false] at hfix
        rcases hfix with h | h | h
        · exact absurd h (by decide)
        · exact absurd h (by decide)
        · exact hlp h.symm
      · exact hpr hppr
    · rcases List.mem_flatten.mp hflat with ⟨l, hl, hcl⟩
      rcases List.mem_filterMap.mp hl with ⟨s, hsmem, hs⟩
      rcases Option.map_eq_some'.mp hs with ⟨l₀, hl₀, rfl⟩
      rcases List.mem_filter.mp hcl with ⟨hmem₀, hne⟩
      simp at hne

/-- Witness for C2 at a concrete state and collaborator bundle: the output
contains the three fixed addresses and not the clock sysvar. -/
theorem get_accounts_to_update_spec_witness :
    POOL_STATE_ID ∈ get_accounts_to_update
      ⟨fun _ => none, fun _ => none, fun _ => none, fun _ _ _ => .ok [],
       fun _ _ => [[7]], fun _ _ => .ok 0, fun _ => .error (.otherErr 0),
       fun _ _ => [], fun _ _ _ => none⟩
      ⟨⟨INF_MINT_ADDR, []⟩, [1, 2, 3], 0, .flatFee, [],
       fun _ => none, fun _ => none⟩ ∧
    SYSVAR_CLOCK ∉ get_accounts_to_update
      ⟨fun _ => none, fun _ => none, fun _ => none, fun _ _ _ => .ok [],
       fun _ _ => [[7]], fun _ _ => .ok 0, fun _ => .error (.otherErr 0),
       fun _ _ => [], fun _ _ _ => none⟩
      ⟨⟨INF_MINT_ADDR, []⟩, [1, 2, 3], 0, .flatFee, [],
       fun _ => none, fun _ => none⟩ :=
  ⟨(get_accounts_to_update_spec _ _).1,
   (get_accounts_to_update_spec _ _).2.2.2 (by decide) (by decide)⟩

/-! ## C10: the constructor -/

/-- If every listed asset's calculator creation either succeeds or fails
with the skippable `MissingSplData`, the pre-initialization loop of
`InfAmm::new` succeeds. -/
theorem preInitCalcs_ok (cb : Collab) (states : List LstState)
    (h : ∀ s ∈ states, (∃ c, cb.createCalc s = .ok c) ∨
      ∃ e, cb.createCalc s = .error e ∧ e.isMissingSplData = true) :
    ∀ calcs, ∃ calcs', preInitCalcs cb states calcs = .ok calcs' := by
  induction states with
  | nil => exact fun calcs => ⟨calcs, rfl⟩
  | cons s rest ih =>
    intro calcs
    have hrest := fun s hs => h s (List.mem_cons_of_mem _ hs)
    have hs := h s (List.mem_cons_self _ _)
    cases hc : calcs s.mint with
    | some c => simpa [preInitCalcs, hc] using ih hrest calcs
    | none =>
      cases hcr : cb.createCalc s with
      | ok c =>
        simpa [preInitCalcs, hc, hcr] using ih hrest (upd calcs s.mint (some c))
      | error e =>
        rcases hs with ⟨c, hok⟩ | ⟨e', he', hspl⟩
        · rw [hcr] at hok; exact absurd hok (by simp)
        · rw [hcr] at he'
          injection he' with he'
          subst he'
          simpa [preInitCalcs, hc, hcr, hspl] using ih hrest calcs

/-- C10: `InfAmm::new` (and hence `from_keyed_account`) rejects any keyed
account whose key is not the asset-list address, constructing no instance
(first conjunct); during construction, a per-asset `MissingSplData` failure
in the calculator pre-initialization loop is skipped rather than propagated
(second conjunct); and when every per-asset creation either succeeds or
fails with `MissingSplData` (and the structural steps succeed), the
constructor succeeds (third conjunct). -/
theorem newInfAmm_spec (cb : Collab) (innerNew : Bytes → Except UErr InfState)
    (key : Pk) (data : Bytes) :
    (key ≠ LST_STATE_LIST_ID →
      newInfAmm cb innerNew key data = .error .incorrectKeyedAccount) ∧
    (∀ s rest calcs e, calcs s.mint = none → cb.createCalc s = .error e →
      e.isMissingSplData = true →
      preInitCalcs cb (s :: rest) calcs = preInitCalcs cb rest calcs) ∧
    (∀ st states, key = LST_STATE_LIST_ID → innerNew data = .ok st →
      cb.parseLstList data = some states →
      (∀ s ∈ states, (∃ c, cb.createCalc s = .ok c) ∨
        ∃ e, cb.createCalc s = .error e ∧ e.isMissingSplData = true) →
      ∃ calcs, newInfAmm cb innerNew key data =
        .ok { st with lstCalcs := calcs }) := by
  refine ⟨?_, ?_, ?_⟩
  · intro hkey
    simp [newInfAmm, hkey]
  · intro s rest calcs e hc hcr hspl
    simp [preInitCalcs, hc, hcr, hspl]
  · intro st states hkey hinner hparse hcreate
    obtain ⟨calcs', hcalcs⟩ := preInitCalcs_ok cb states hcreate st.lstCalcs
    exact ⟨calcs', by simp [newInfAmm, hkey, hinner, hparse, hcalcs]⟩

/-- Witness for C10 at concrete inputs: a wrong key is rejected; a
`MissingSplData` creation failure for the single listed asset is skipped and
construction succeeds. -/
theorem newInfAmm_spec_witness :
    newInfAmm
      ⟨fun _ => none, fun _ => some [⟨[9], []⟩], fun _ => none,
       fun _ _ _ => .ok [], fun _ _ => [], fun _ _ => .ok 0,
       fun s => .error (.missingSplData s.mint), fun _ _ => [],
       fun _ _ _ => none⟩
      (fun _ => .ok ⟨⟨INF_MINT_ADDR, []⟩, [], 0, .flatFee, [],
        fun _ => none, fun _ => none⟩) [3] [] =
      .error .incorrectKeyedAccount ∧
    ∃ calcs, newInfAmm
      ⟨fun _ => none, fun _ => some [⟨[9], []⟩], fun _ => none,
       fun _ _ _ => .ok [], fun _ _ => [], fun _ _ => .ok 0,
       fun s => .error (.missingSplData s.mint), fun _ _ => [],
       fun _ _ _ => none⟩
      (fun _ => .ok ⟨⟨INF_MINT_ADDR, []⟩, [], 0, .flatFee, [],
        fun _ => none, fun _ => none⟩) LST_STATE_LIST_ID [] =
      .ok { pool := ⟨INF_MINT_ADDR, []⟩, lstStateListData := [],
            lpTokenSupply := 0, pricingTag := .flatFee, pricingData := [],
            lstCalcs := calcs, lstReserves := fun _ => none } :=
  ⟨(newInfAmm_spec _ _ [3] []).1 (by decide),
   (newInfAmm_spec _ _ LST_STATE_LIST_ID []).2.2
     ⟨⟨INF_MINT_ADDR, []⟩, [], 0, .flatFee, [], fun _ => none, fun _ => none⟩
     [⟨[9], []⟩] rfl rfl rfl
     (by
       intro s hs
       simp only [List.mem_singleton] at hs
       subst hs
       exact Or.inr ⟨.missingSplData [9], rfl, rfl⟩)⟩

/-! ## C3: the tolerant per-asset failure policy of `update` -/

/-- Mints not listed among the processed assets keep their registry and
reserve entries unchanged through the per-asset stage. -/
theorem updateAssets_untouched (cb : Collab) (fetched : Fetched) :
    ∀ (assets : List LstState) (calcs : Mint → Option UCalc)
      (reserves : Mint → Option Nat) out,
      updateAssets cb fetched assets calcs reserves = .ok out →
      ∀ m, m ∉ assets.map LstState.mint →
        out.1 m = calcs m ∧ out.2 m = reserves m := by
  intro assets
  induction assets with
  | nil =>
    intro calcs reserves out hout m _
    injection hout with hout
    subst hout
    exact ⟨rfl, rfl⟩
  | cons s rest ih =>
    intro calcs reserves out hout m hm
    simp only [List.map_cons, List.mem_cons, not_or] at hm
    obtain ⟨hms, hmrest⟩ := hm
    have hupd : ∀ {α : Type} (f : Mint → Option α) v, upd f s.mint v m = f m := by
      intro α f v
      simp [upd, hms]
    simp only [updateAssets] at hout
    cases hv : cb.reserveVal s fetched with
    | error e => simp only [hv] at hout; exact absurd hout (by simp)
    | ok v =>
      simp only [hv] at hout
      cases hc : calcs s.mint with
      | some c =>
        simp only [hc] at hout
        cases hd : refreshSvc cb fetched c.kind c.ident with
        | error e => simp only [hd] at hout; exact absurd hout (by simp)
        | ok d =>
          simp only [hd] at hout
          have := ih _ _ _ hout m (by simpa using hmrest)
          rw [hupd, hupd] at this
          exact this
      | none =>
        simp only [hc] at hout
        cases hcr : cb.createCalc s with
        | error e =>
          simp only [hcr] at hout
          cases hspl : e.isMissingSplData with
          | true =>
            simp only [hspl, if_true] at hout
            have := ih _ _ _ hout m (by simpa using hmrest)
            rw [hupd, hupd] at this
            exact this
          | false =>
            simp only [hspl] at hout
            simp at hout
        | ok c =>
          simp only [hcr] at hout
          cases hd : refreshSvc cb fetched c.kind c.ident with
          | error e => simp only [hd] at hout; exact absurd hout (by simp)
          | ok d =>
            simp only [hd] at hout
            have := ih _ _ _ hout m (by simpa using hmrest)
            rw [hupd, hupd] at this
            exact this

/-- Under the tolerant policy, when every listed asset's reserve update
succeeds and its calculator step either fully succeeds or fails only with
the skippable `MissingSplData`, the per-asset stage succeeds, and every
asset whose creation failed with `MissingSplData` is absent from the final
registry (assuming distinct listed mints). -/
theorem updateAssets_tolerant_ok (cb : Collab) (fetched : Fetched) :
    ∀ (assets : List LstState) (calcs : Mint → Option UCalc)
      (reserves : Mint → Option Nat),
      (assets.map LstState.mint).Nodup →
      (∀ s ∈ assets,
        (∃ v, cb.reserveVal s fetched = .ok v) ∧
        (∀ c, calcs s.mint = some c →
          ∃ d, refreshSvc cb fetched c.kind c.ident = .ok d) ∧
        (calcs s.mint = none →
          (∃ e, cb.createCalc s = .error e ∧ e.isMissingSplData = true) ∨
          (∃ c, cb.createCalc s = .ok c ∧
            ∃ d, refreshSvc cb fetched c.kind c.ident = .ok d))) →
      ∃ out, updateAssets cb fetched assets calcs reserves = .ok out ∧
        ∀ s ∈ assets, calcs s.mint = none →
          (∃ e, cb.createCalc s = .error e ∧ e.isMissingSplData = true) →
          out.1 s.mint = none := by
  intro assets
  induction assets with
  | nil =>
    intro calcs reserves _ _
    exact ⟨(calcs, reserves), rfl, by simp⟩
  | cons s rest ih =>
    intro calcs reserves hnd h
    simp only [List.map_cons, List.nodup_cons] at hnd
    obtain ⟨hnin, hnd'⟩ := hnd
    obtain ⟨⟨v, hv⟩, hsome, hnone⟩ := h s (List.mem_cons_self _ _)
    have hne : ∀ s' ∈ rest, s'.mint ≠ s.mint := by
      intro s' hs' heq
      exact hnin (heq ▸ List.mem_map_of_mem LstState.mint hs')
    have hcond : ∀ (x : Option UCalc), ∀ s' ∈ rest,
        (∃ v', cb.reserveVal s' fetched = .ok v') ∧
        (∀ c, upd calcs s.mint x s'.mint = some c →
          ∃ d, refreshSvc cb fetched c.kind c.ident = .ok d) ∧
        (upd calcs s.mint x s'.mint = none →
          (∃ e, cb.createCalc s' = .error e ∧ e.isMissingSplData = true) ∨
          (∃ c, cb.createCalc s' = .ok c ∧
            ∃ d, refreshSvc cb fetched c.kind c.ident = .ok d)) := by
      intro x s' hs'
      have hu : upd calcs s.mint x s'.mint = calcs s'.mint := by
        simp [upd, hne s' hs']
      rw [hu]
      exact h s' (List.mem_cons_of_mem _ hs')
    cases hc : calcs s.mint with
    | some c =>
      obtain ⟨d, hd⟩ := hsome c hc
      obtain ⟨out, hout, hconc⟩ :=
        ih (upd calcs s.mint (some ⟨c.kind, c.ident, d⟩))
          (upd reserves s.mint (some v)) hnd'
          (hcond (some ⟨c.kind, c.ident, d⟩))
      refine ⟨out, by simp [updateAssets, hv, hc, hd, hout], ?_⟩
      intro s' hs' hnone' hspl'
      rcases List.mem_cons.mp hs' with rfl | hs'
      · rw [hc] at hnone'; exact absurd hnone' (by simp)
      · have hu : upd calcs s.mint (some ⟨c.kind, c.ident, d⟩) s'.mint
            = calcs s'.mint := by simp [upd, hne s' hs']
        exact hconc s' hs' (hu.trans hnone') hspl'
    | none =>
      rcases hnone hc with ⟨e, he, hspl⟩ | ⟨c, hcr, d, hd⟩
      · obtain ⟨out, hout, hconc⟩ :=
          ih (upd calcs s.mint none) (upd reserves s.mint (some v)) hnd'
            (hcond none)
        refine ⟨out, by simp [updateAssets, hv, hc, he, hspl, hout], ?_⟩
        intro s' hs' hnone' hspl'
        rcases List.mem_cons.mp hs' with rfl | hs'
        · have := (updateAssets_untouched cb fetched rest _ _ out hout
            s'.mint hnin).1
          rw [this]
          simp [upd]
        · have hu : upd calcs s.mint none s'.mint = calcs s'.mint := by
            simp [upd, hne s' hs']
          exact hconc s' hs' (hu.trans hnone') hspl'
      · obtain ⟨out, hout, hconc⟩ :=
          ih (upd calcs s.mint (some ⟨c.kind, c.ident, d⟩))
            (upd reserves s.mint (some v)) hnd'
            (hcond (some ⟨c.kind, c.ident, d⟩))
        refine ⟨out, by simp [updateAssets, hv, hc, hcr, hd, hout], ?_⟩
        intro s' hs' hnone' hspl'
        rcases List.mem_cons.mp hs' with rfl | hs'
        · obtain ⟨e', he', _⟩ := hspl'
          rw [hcr] at he'
          exact absurd he' (by simp)
        · have hu : upd calcs s.mint (some ⟨c.kind, c.ident, d⟩) s'.mint
              = calcs s'.mint := by simp [upd, hne s' hs']
          exact hconc s' hs' (hu.trans hnone') hspl'

/-- C3: the per-asset stage of `update` implements the tolerant failure
policy: an asset whose calculator get-or-create fails with the data-missing
error `MissingSplData` has its Calculator removed from the registry and
processing continues with the remaining assets (first conjunct, the
continuation equation; the removed entry is `none`); any other per-asset
creation error aborts the entire stage with that error (second conjunct);
and when every asset either fully succeeds or fails only with
`MissingSplData`, the stage succeeds and each such failed asset is absent
from the final registry (third conjunct). -/
theorem update_tolerant_policy (cb : Collab) (fetched : Fetched) :
    (∀ (s : LstState) rest (calcs : Mint → Option UCalc) reserves v e,
      cb.reserveVal s fetched = .ok v → calcs s.mint = none →
      cb.createCalc s = .error e → e.isMissingSplData = true →
      updateAssets cb fetched (s :: rest) calcs reserves =
        updateAssets cb fetched rest (upd calcs s.mint none)
          (upd reserves s.mint (some v)) ∧
      upd calcs s.mint none s.mint = none) ∧
    (∀ (s : LstState) rest (calcs : Mint → Option UCalc) reserves v e,
      cb.reserveVal s fetched = .ok v → calcs s.mint = none →
      cb.createCalc s = .error e → e.isMissingSplData = false →
      updateAssets cb fetched (s :: rest) calcs reserves = .error e) ∧
    (∀ (assets : List LstState) (calcs : Mint → Option UCalc) reserves,
      (assets.map LstState.mint).Nodup →
      (∀ s ∈ assets,
        (∃ v, cb.reserveVal s fetched = .ok v) ∧
        (∀ c, calcs s.mint = some c →
          ∃ d, refreshSvc cb fetched c.kind c.ident = .ok d) ∧
        (calcs s.mint = none →
          (∃ e, cb.createCalc s = .error e ∧ e.isMissingSplData = true) ∨
          (∃ c, cb.createCalc s = .ok c ∧
            ∃ d, refreshSvc cb fetched c.kind c.ident = .ok d))) →
      ∃ out, updateAssets cb fetched assets calcs reserves = .ok out ∧
        ∀ s ∈ assets, calcs s.mint = none →
          (∃ e, cb.createCalc s = .error e ∧ e.isMissingSplData = true) →
          out.1 s.mint = none) := by
  refine ⟨?_, ?_, ?_⟩
  · intro s rest calcs reserves v e hv hc hcr hspl
    exact ⟨by simp [updateAssets, hv, hc, hcr, hspl], by simp [upd]⟩
  · intro s rest calcs reserves v e hv hc hcr hspl
    simp [updateAssets, hv, hc, hcr, hspl]
  · exact updateAssets_tolerant_ok cb fetched

/-- A concrete collaborator bundle for witnesses: reserve updates succeed
with value 1 and every calculator creation fails with `MissingSplData`. -/
def tolCb : Collab :=
  ⟨fun _ => none, fun _ => none, fun _ => none, fun _ _ _ => .ok [],
   fun _ _ => [], fun _ _ => .ok 1,
   fun s => .error (.missingSplData s.mint), fun _ _ => [],
   fun _ _ _ => some []⟩

/-- Witness for C3 at concrete inputs: with a single listed asset of mint
`[9]`, no prior Calculator, and a creation that fails with
`MissingSplData`, the step reduces to the continuation on the remaining
(empty) list with the entry removed, and the stage succeeds with `[9]`
absent from the final registry. -/
theorem update_tolerant_policy_witness :
    (updateAssets tolCb (fun _ => none) [⟨[9], []⟩]
        (fun _ => none) (fun _ => none) =
      updateAssets tolCb (fun _ => none) []
        (upd (fun _ => none) [9] none) (upd (fun _ => none) [9] (some 1))) ∧
    (∃ out, updateAssets tolCb (fun _ => none) [⟨[9], []⟩]
        (fun _ => none) (fun _ => none) = .ok out ∧
      out.1 [9] = none) := by
  have h1 := (update_tolerant_policy tolCb (fun _ => none)).1
    ⟨[9], []⟩ [] (fun _ => none) (fun _ => none) 1 (.missingSplData [9])
    rfl rfl rfl rfl
  have h3 := (update_tolerant_policy tolCb (fun _ => none)).2.2
    [⟨[9], []⟩] (fun _ => none) (fun _ => none) (by simp)
    (by
      intro s hs
      simp only [List.mem_singleton] at hs
      subst hs
      exact ⟨⟨1, rfl⟩, fun c hc => absurd hc (by simp),
        fun _ => Or.inl ⟨.missingSplData [9], rfl, rfl⟩⟩)
  obtain ⟨out, hout, habs⟩ := h3
  exact ⟨h1.1, out, hout,
    habs ⟨[9], []⟩ (List.mem_singleton_self _) rfl
      ⟨.missingSplData [9], rfl, rfl⟩⟩

/-! ## C8: strict stage ordering of `update` -/

/-- C8: `update` applies its stages in the fixed source order — pool
descriptor, asset list, LP token supply (then the asset-list re-parse),
pricing scheme, per-asset stage — and a structural failure (missing or
undeserializable core account) in any of the earlier stages aborts the
whole update with that error.  Each conjunct quantifies over a second
collaborator bundle `cb₂` constrained to agree with `cb` only on the
components the stages before the failure use, and over an arbitrary state:
the abort result is independent of everything a later stage would apply,
so no stage after the failing one is applied. -/
theorem update_stage_order (cb : Collab) (fetched : Fetched) (st : InfState) :
    (fetched POOL_STATE_ID = none →
      ∀ (cb₂ : Collab) (st₂ : InfState),
        update cb₂ fetched st₂ = .error (.missingAcc POOL_STATE_ID)) ∧
    (∀ b, fetched POOL_STATE_ID = some b → cb.parsePool b = none →
      ∀ (cb₂ : Collab) (st₂ : InfState), cb₂.parsePool = cb.parsePool →
        update cb₂ fetched st₂ = .error (.accDeser POOL_STATE_ID)) ∧
    (∀ b p, fetched POOL_STATE_ID = some b → cb.parsePool b = some p →
      fetched LST_STATE_LIST_ID = none →
      ∀ (cb₂ : Collab) (st₂ : InfState), cb₂.parsePool = cb.parsePool →
        update cb₂ fetched st₂ = .error (.missingAcc LST_STATE_LIST_ID)) ∧
    (∀ b p lb, fetched POOL_STATE_ID = some b → cb.parsePool b = some p →
      fetched LST_STATE_LIST_ID = some lb → fetched p.lpTokenMint = none →
      ∀ (cb₂ : Collab) (st₂ : InfState), cb₂.parsePool = cb.parsePool →
        update cb₂ fetched st₂ = .error (.missingAcc p.lpTokenMint)) ∧
    (∀ b p lb sb, fetched POOL_STATE_ID = some b → cb.parsePool b = some p →
      fetched LST_STATE_LIST_ID = some lb → fetched p.lpTokenMint = some sb →
      cb.parseSupply sb = none →
      ∀ (cb₂ : Collab) (st₂ : InfState), cb₂.parsePool = cb.parsePool →
        cb₂.parseSupply = cb.parseSupply →
        update cb₂ fetched st₂ = .error (.accDeser p.lpTokenMint)) ∧
    (∀ b p lb sb n, fetched POOL_STATE_ID = some b → cb.parsePool b = some p →
      fetched LST_STATE_LIST_ID = some lb → fetched p.lpTokenMint = some sb →
      cb.parseSupply sb = some n → cb.parseLstList lb = none →
      ∀ (cb₂ : Collab) (st₂ : InfState), cb₂.parsePool = cb.parsePool →
        cb₂.parseSupply = cb.parseSupply →
        cb₂.parseLstList = cb.parseLstList →
        update cb₂ fetched st₂ = .error (.accDeser LST_STATE_LIST_ID)) ∧
    (∀ b p lb sb n states e, fetched POOL_STATE_ID = some b →
      cb.parsePool b = some p → fetched LST_STATE_LIST_ID = some lb →
      fetched p.lpTokenMint = some sb → cb.parseSupply sb = some n →
      cb.parseLstList lb = some states →
      cb.pricingUpdate st.pricingTag (states.map LstState.mint) fetched =
        .error e →
      ∀ (cb₂ : Collab) (st₂ : InfState), cb₂.parsePool = cb.parsePool →
        cb₂.parseSupply = cb.parseSupply →
        cb₂.parseLstList = cb.parseLstList →
        cb₂.pricingUpdate = cb.pricingUpdate →
        st₂.pricingTag = st.pricingTag →
        update cb₂ fetched st₂ = .error e) := by
  refine ⟨?_, ?_, ?_, ?_, ?_, ?_, ?_⟩
  · intro h cb₂ st₂
    simp [update, getAcc, h]
  · intro b hb hp cb₂ st₂ h₂
    simp [update, getAcc, hb, h₂, hp]
  · intro b p hb hp hl cb₂ st₂ h₂
    simp [update, getAcc, hb, h₂, hp, hl]
  · intro b p lb hb hp hl hm cb₂ st₂ h₂
    simp [update, getAcc, hb, h₂, hp, hl, hm]
  · intro b p lb sb hb hp hl hm hs cb₂ st₂ h₂ h₃
    simp [update, getAcc, hb, h₂, hp, hl, hm, h₃, hs]
  · intro b p lb sb n hb hp hl hm hs hll cb₂ st₂ h₂ h₃ h₄
    simp [update, getAcc, hb, h₂, hp, hl, hm, h₃, hs, h₄, hll]
  · intro b p lb sb n states e hb hp hl hm hs hll hpr cb₂ st₂ h₂ h₃ h₄ h₅ h₆
    simp [update, getAcc, hb, h₂, hp, hl, hm, h₃, hs, h₄, hll, h₅, h₆, hpr]

/-- Witness for C8 at concrete inputs: an account map holding only an
undeserializable pool descriptor account makes `update` abort with
`AccDeser(POOL_STATE_ID)` under any per-asset collaborators and state. -/
theorem update_stage_order_witness :
    update tolCb
      (fun pk => if pk = POOL_STATE_ID then some [0] else none)
      ⟨⟨INF_MINT_ADDR, []⟩, [], 0, .flatFee, [], fun _ => none,
        fun _ => none⟩ =
      .error (.accDeser POOL_STATE_ID) :=
  (update_stage_order tolCb
      (fun pk => if pk = POOL_STATE_ID then some [0] else none)
      ⟨⟨INF_MINT_ADDR, []⟩, [], 0, .flatFee, [], fun _ => none,
        fun _ => none⟩).2.1
    [0] (by decide) rfl tolCb _ rfl

/-! ## C4: `update` never requires the volatile clock address -/

/-- `readAccs` reports a missing account only for addresses it was asked to
read. -/
theorem readAccs_missing_mem (fetched : Fetched) :
    ∀ (pks : List Pk) (pk : Pk),
      readAccs fetched pks = .error (.missingAcc pk) → pk ∈ pks := by
  intro pks
  induction pks with
  | nil => intro pk h; exact absurd h (by simp [readAccs])
  | cons a rest ih =>
    intro pk h
    simp only [readAccs] at h
    cases ha : fetched a with
    | none =>
      simp only [getAcc, ha] at h
      injection h with h
      injection h with h
      exact h ▸ List.mem_cons_self _ _
    | some b =>
      simp only [getAcc, ha] at h
      cases hr : readAccs fetched rest with
      | error e =>
        simp only [hr] at h
        injection h with h
        exact List.mem_cons_of_mem _ (ih pk (h ▸ hr))
      | ok bs => simp only [hr] at h; exact absurd h (by simp)

/-- Given that the clock-independent Marinade and wSOL backends do not list
the clock sysvar among their refresh accounts, no backend's refresh key set
contains the clock: the four time-bound backends exclude it by the
`_no_clock` filter. -/
theorem clock_not_mem_refreshKeys (cb : Collab)
    (hmar : ∀ i, SYSVAR_CLOCK ∉ cb.svcAccs .marinade i)
    (hwsol : ∀ i, SYSVAR_CLOCK ∉ cb.svcAccs .wsol i) :
    ∀ kind ident, SYSVAR_CLOCK ∉ refreshKeys cb kind ident := by
  intro kind ident hmem
  cases kind with
  | marinade => exact hmar ident hmem
  | wsol => exact hwsol ident hmem
  | lido =>
    rcases List.mem_filter.mp hmem with ⟨_, hne⟩
    simp at hne
  | sanctumSpl =>
    rcases List.mem_filter.mp hmem with ⟨_, hne⟩
    simp at hne
  | sanctumSplMulti =>
    rcases List.mem_filter.mp hmem with ⟨_, hne⟩
    simp at hne
  | spl =>
    rcases List.mem_filter.mp hmem with ⟨_, hne⟩
    simp at hne

/-- Under the same side condition, a calculator refresh never fails with a
missing-clock-account error. -/
theorem refreshSvc_no_missing_clock (cb : Collab) (fetched : Fetched)
    (hmar : ∀ i, SYSVAR_CLOCK ∉ cb.svcAccs .marinade i)
    (hwsol : ∀ i, SYSVAR_CLOCK ∉ cb.svcAccs .wsol i) :
    ∀ kind ident,
      refreshSvc cb fetched kind ident ≠ .error (.missingAcc SYSVAR_CLOCK) := by
  intro kind ident h
  simp only [refreshSvc] at h
  cases hr : readAccs fetched (refreshKeys cb kind ident) with
  | error e =>
    simp only [hr] at h
    injection h with h
    exact clock_not_mem_refreshKeys cb hmar hwsol kind ident
      (readAccs_missing_mem fetched _ _ (h ▸ hr))
  | ok ds =>
    simp only [hr] at h
    cases hd : cb.mkData kind ident ds with
    | some d => simp only [hd] at h; exact absurd h (by simp)
    | none => simp only [hd] at h; injection h with h; exact absurd h (by simp)

/-- The per-asset stage never fails with a missing-clock-account error
when its collaborators never demand the clock. -/
theorem updateAssets_no_missing_clock (cb : Collab) (fetched : Fetched)
    (hres : ∀ s, cb.reserveVal s fetched ≠ .error (.missingAcc SYSVAR_CLOCK))
    (hcreate : ∀ s, cb.createCalc s ≠ .error (.missingAcc SYSVAR_CLOCK))
    (hmar : ∀ i, SYSVAR_CLOCK ∉ cb.svcAccs .marinade i)
    (hwsol : ∀ i, SYSVAR_CLOCK ∉ cb.svcAccs .wsol i) :
    ∀ (assets : List LstState) (calcs : Mint → Option UCalc) reserves,
      updateAssets cb fetched assets calcs reserves ≠
        .error (.missingAcc SYSVAR_CLOCK) := by
  intro assets
  induction assets with
  | nil => intro calcs reserves h; exact absurd h (by simp [updateAssets])
  | cons s rest ih =>
    intro calcs reserves h
    simp only [updateAssets] at h
    cases hv : cb.reserveVal s fetched with
    | error e =>
      simp only [hv] at h
      injection h with h
      exact hres s (h ▸ hv)
    | ok v =>
      simp only [hv] at h
      cases hc : calcs s.mint with
      | some c =>
        simp only [hc] at h
        cases hd : refreshSvc cb fetched c.kind c.ident with
        | error e =>
          simp only [hd] at h
          injection h with h
          exact refreshSvc_no_missing_clock cb fetched hmar hwsol _ _ (h ▸ hd)
        | ok d =>
          simp only [hd] at h
          exact ih _ _ h
      | none =>
        simp only [hc] at h
        cases hcr : cb.createCalc s with
        | error e =>
          simp only [hcr] at h
          cases hspl : e.isMissingSplData with
          | true =>
            simp only [hspl, if_true] at h
            exact ih _ _ h
          | false =>
            simp only [hspl, if_false] at h
            injection h with h
            exact hcreate s (h ▸ hcr)
        | ok c =>
          simp only [hcr] at h
          cases hd : refreshSvc cb fetched c.kind c.ident with
          | error e =>
            simp only [hd] at h
            injection h with h
            exact refreshSvc_no_missing_clock cb fetched hmar hwsol _ _ (h ▸ hd)
          | ok d =>
            simp only [hd] at h
            exact ih _ _ h

/-- C4: for every fetched account map (in particular one not containing the
clock sysvar), `update` never fails with a missing-account error for the
clock address, provided the opaque collaborators themselves never demand
the clock (per the spec, the volatile/time address "is never part of a
routine fetch set"): the LP token mint is not the clock, the pricing
refresh never reports the clock missing, reserve updates and calculator
creations never report the clock missing, and the clock-independent
Marinade and wSOL backends do not list it.  Time-bound backends are
clock-free definitionally, via the `_no_clock` refresh-key filter.  Update
success therefore never requires the volatile address to be present. -/
theorem update_no_missing_clock (cb : Collab) (fetched : Fetched)
    (st : InfState)
    (_hfetch : fetched SYSVAR_CLOCK = none)
    (hlp : ∀ b p, cb.parsePool b = some p → p.lpTokenMint ≠ SYSVAR_CLOCK)
    (hpricing : ∀ tag mints, cb.pricingUpdate tag mints fetched ≠
      .error (.missingAcc SYSVAR_CLOCK))
    (hres : ∀ s, cb.reserveVal s fetched ≠ .error (.missingAcc SYSVAR_CLOCK))
    (hcreate : ∀ s, cb.createCalc s ≠ .error (.missingAcc SYSVAR_CLOCK))
    (hmar : ∀ i, SYSVAR_CLOCK ∉ cb.svcAccs .marinade i)
    (hwsol : ∀ i, SYSVAR_CLOCK ∉ cb.svcAccs .wsol i) :
    update cb fetched st ≠ .error (.missingAcc SYSVAR_CLOCK) := by
  intro h
  simp only [update] at h
  cases hb : fetched POOL_STATE_ID with
  | none =>
    simp only [getAcc, hb] at h
    injection h with h
    injection h with h
    exact absurd h (by decide)
  | some b =>
    simp only [getAcc, hb] at h
    cases hp : cb.parsePool b with
    | none =>
      simp only [hp] at h
      injection h with h
      exact absurd h (by simp)
    | some p =>
      simp only [hp] at h
      cases hl : fetched LST_STATE_LIST_ID with
      | none =>
        simp only [hl] at h
        injection h with h
        injection h with h
        exact absurd h (by decide)
      | some lb =>
        simp only [hl] at h
        cases hm : fetched p.lpTokenMint with
        | none =>
          simp only [hm] at h
          injection h with h
          injection h with h
          exact hlp b p hp h
        | some sb =>
          simp only [hm] at h
          cases hs : cb.parseSupply sb with
          | none =>
            simp only [hs] at h
            injection h with h
            exact absurd h (by simp)
          | some n =>
            simp only [hs] at h
            cases hll : cb.parseLstList lb with
            | none =>
              simp only [hll] at h
              injection h with h
              exact absurd h (by simp)
            | some states =>
              simp only [hll] at h
              cases hpr : cb.pricingUpdate st.pricingTag
                  (states.map LstState.mint) fetched with
              | error e =>
                simp only [hpr] at h
                injection h with h
                exact hpricing _ _ (h ▸ hpr)
              | ok pdata =>
                simp only [hpr] at h
                cases hua : updateAssets cb fetched states st.lstCalcs
                    st.lstReserves with
                | error e =>
                  simp only [hua] at h
                  injection h with h
                  exact updateAssets_no_missing_clock cb fetched hres hcreate
                    hmar hwsol states st.lstCalcs st.lstReserves (h ▸ hua)
                | ok cr => simp only [hua] at h; exact absurd h (by simp)

/-- Witness for C4 at concrete inputs: a clock-free account map holding the
three core accounts and a benign collaborator bundle never produce a
missing-clock failure. -/
theorem update_no_missing_clock_witness :
    update
      ⟨fun _ => some ⟨INF_MINT_ADDR, []⟩, fun _ => some [], fun _ => some 0,
       fun _ _ _ => .ok [], fun _ _ => [], fun _ _ => .ok 1,
       fun s => .error (.missingSplData s.mint), fun _ _ => [],
       fun _ _ _ => some []⟩
      (fun pk => if pk = SYSVAR_CLOCK then none else some [0])
      ⟨⟨INF_MINT_ADDR, []⟩, [], 0, .flatFee, [], fun _ => none,
        fun _ => none⟩ ≠
      .error (.missingAcc SYSVAR_CLOCK) :=
  update_no_missing_clock _ _ _
    (by simp)
    (fun b p hp => by injection hp with hp; rw [← hp]; decide)
    (fun tag mints h => by exact absurd h (by simp))
    (fun s h => by exact absurd h (by simp))
    (fun s h => by
      injection h with h
      exact absurd h (by simp))
    (fun i h => by simp at h)
    (fun i h => by simp at h)

/-! ## C6: idempotence of `update` -/

/-- The pure reserve-map effect of the per-asset stage: each asset whose
reserve value computes successfully overwrites its entry, in list order. -/
def resFold (cb : Collab) (fetched : Fetched) :
    List LstState → (Mint → Option Nat) → (Mint → Option Nat)
  | [], r => r
  | s :: rest, r =>
    match cb.reserveVal s fetched with
    | .ok v => resFold cb fetched rest (upd r s.mint (some v))
    | .error _ => resFold cb fetched rest r

/-- The last successfully computed reserve value written for a mint by a
list of assets, if any. -/
def lastW (cb : Collab) (fetched : Fetched) :
    List LstState → Mint → Option Nat
  | [], _ => none
  | s :: rest, m =>
    match lastW cb fetched rest m with
    | some v => some v
    | none =>
      if s.mint = m then
        match cb.reserveVal s fetched with
        | .ok v => some v
        | .error _ => none
      else none

/-- Pointwise description of `resFold`: the last write wins, otherwise the
prior entry is kept. -/
theorem resFold_eq_lastW (cb : Collab) (fetched : Fetched) :
    ∀ (assets : List LstState) (r : Mint → Option Nat) (m : Mint),
      resFold cb fetched assets r m =
        match lastW cb fetched assets m with
        | some v => some v
        | none => r m := by
  intro assets
  induction assets with
  | nil => intro r m; rfl
  | cons s rest ih =>
    intro r m
    cases hv : cb.reserveVal s fetched with
    | ok v =>
      simp only [resFold, lastW, hv]
      rw [ih]
      cases hl : lastW cb fetched rest m with
      | some w => simp
      | none =>
        by_cases hm : s.mint = m
        · subst hm
          simp [upd]
        · have hm' : ¬m = s.mint := fun hx => hm hx.symm
          simp [upd, hm, hm']
    | error e =>
      simp only [resFold, lastW, hv]
      rw [ih]
      cases hl : lastW cb fetched rest m with
      | some w => simp
      | none =>
        by_cases hm : s.mint = m
        · simp [hm]
        · simp [hm]

/-- `resFold` is idempotent. -/
theorem resFold_idem (cb : Collab) (fetched : Fetched)
    (assets : List LstState) (r : Mint → Option Nat) :
    resFold cb fetched assets (resFold cb fetched assets r) =
      resFold cb fetched assets r := by
  funext m
  rw [resFold_eq_lastW, resFold_eq_lastW]
  cases hl : lastW cb fetched assets m with
  | some v => simp
  | none => simp

/-- Inversion of one successful per-asset step: the reserve value computed,
and the three source branches — refresh of an existing Calculator, skip and
removal on `MissingSplData`, or creation followed by refresh. -/
theorem updateAssets_cons_inv (cb : Collab) (fetched : Fetched)
    (s : LstState) (rest : List LstState) (calcs : Mint → Option UCalc)
    (r : Mint → Option Nat) (out : (Mint → Option UCalc) × (Mint → Option Nat))
    (h : updateAssets cb fetched (s :: rest) calcs r = .ok out) :
    ∃ v, cb.reserveVal s fetched = .ok v ∧
      ((∃ c d, calcs s.mint = some c ∧
          refreshSvc cb fetched c.kind c.ident = .ok d ∧
          updateAssets cb fetched rest
            (upd calcs s.mint (some ⟨c.kind, c.ident, d⟩))
            (upd r s.mint (some v)) = .ok out) ∨
       (∃ e, calcs s.mint = none ∧ cb.createCalc s = .error e ∧
          e.isMissingSplData = true ∧
          updateAssets cb fetched rest (upd calcs s.mint none)
            (upd r s.mint (some v)) = .ok out) ∨
       (∃ c d, calcs s.mint = none ∧ cb.createCalc s = .ok c ∧
          refreshSvc cb fetched c.kind c.ident = .ok d ∧
          updateAssets cb fetched rest
            (upd calcs s.mint (some ⟨c.kind, c.ident, d⟩))
            (upd r s.mint (some v)) = .ok out)) := by
  simp only [updateAssets] at h
  cases hv : cb.reserveVal s fetched with
  | error e => simp only [hv] at h; exact absurd h (by simp)
  | ok v =>
    simp only [hv] at h
    refine ⟨v, rfl, ?_⟩
    cases hc : calcs s.mint with
    | some c =>
      simp only [hc] at h
      cases hd : refreshSvc cb fetched c.kind c.ident with
      | error e => simp only [hd] at h; exact absurd h (by simp)
      | ok d =>
        simp only [hd] at h
        exact Or.inl ⟨c, d, rfl, hd, h⟩
    | none =>
      simp only [hc] at h
      cases hcr : cb.createCalc s with
      | error e =>
        simp only [hcr] at h
        cases hspl : e.isMissingSplData with
        | true =>
          simp only [hspl, if_true] at h
          exact Or.inr (Or.inl ⟨e, rfl, rfl, hspl, h⟩)
        | false =>
          simp only [hspl, if_false] at h
          exact absurd h (by simp)
      | ok c =>
        simp only [hcr] at h
        cases hd : refreshSvc cb fetched c.kind c.ident with
        | error e => simp only [hd] at h; exact absurd h (by simp)
        | ok d =>
          simp only [hd] at h
          exact Or.inr (Or.inr ⟨c, d, rfl, rfl, hd, h⟩)

/-- A successful per-asset stage leaves the reserves exactly as the pure
fold `resFold` describes. -/
theorem updateAssets_reserves_eq (cb : Collab) (fetched : Fetched) :
    ∀ (assets : List LstState) (calcs : Mint → Option UCalc)
      (r : Mint → Option Nat) out,
      updateAssets cb fetched assets calcs r = .ok out →
      out.2 = resFold cb fetched assets r := by
  intro assets
  induction assets with
  | nil =>
    intro calcs r out h
    injection h with h
    subst h
    rfl
  | cons s rest ih =>
    intro calcs r out h
    obtain ⟨v, hv, hcase⟩ := updateAssets_cons_inv cb fetched s rest calcs r out h
    have hres : resFold cb fetched (s :: rest) r =
        resFold cb fetched rest (upd r s.mint (some v)) := by
      simp [resFold, hv]
    rw [hres]
    rcases hcase with ⟨c, d, _, _, hrec⟩ | ⟨e, _, _, _, hrec⟩ |
      ⟨c, d, _, _, _, hrec⟩
    · exact ih _ _ _ hrec
    · exact ih _ _ _ hrec
    · exact ih _ _ _ hrec

/-- A successful per-asset stage had every asset's reserve value compute
successfully. -/
theorem updateAssets_rv_ok (cb : Collab) (fetched : Fetched) :
    ∀ (assets : List LstState) (calcs : Mint → Option UCalc)
      (r : Mint → Option Nat) out,
      updateAssets cb fetched assets calcs r = .ok out →
      ∀ s ∈ assets, ∃ v, cb.reserveVal s fetched = .ok v := by
  intro assets
  induction assets with
  | nil => intro calcs r out _ s hs; exact absurd hs (by simp)
  | cons s₀ rest ih =>
    intro calcs r out h s hs
    obtain ⟨v, hv, hcase⟩ :=
      updateAssets_cons_inv cb fetched s₀ rest calcs r out h
    rcases List.mem_cons.mp hs with rfl | hs'
    · exact ⟨v, hv⟩
    · rcases hcase with ⟨c, d, _, _, hrec⟩ | ⟨e, _, _, _, hrec⟩ |
        ⟨c, d, _, _, _, hrec⟩
      · exact ih _ _ _ hrec s hs'
      · exact ih _ _ _ hrec s hs'
      · exact ih _ _ _ hrec s hs'

/-- A refreshed Calculator: its data is exactly what a fresh refresh of its
kind and identity yields from the fetched bytes. -/
def refreshedOk (cb : Collab) (fetched : Fetched) (c : UCalc) : Prop :=
  refreshSvc cb fetched c.kind c.ident = .ok c.data

/-- Registry trichotomy: after a successful per-asset stage, each mint's
entry is unchanged, or is a freshly refreshed Calculator, or is absent and
was already absent before. -/
theorem updateAssets_registry_tri (cb : Collab) (fetched : Fetched) :
    ∀ (assets : List LstState) (calcs : Mint → Option UCalc)
      (r : Mint → Option Nat) out,
      updateAssets cb fetched assets calcs r = .ok out →
      ∀ m, out.1 m = calcs m ∨
        (∃ c, out.1 m = some c ∧ refreshedOk cb fetched c) ∨
        (out.1 m = none ∧ calcs m = none) := by
  intro assets
  induction assets with
  | nil =>
    intro calcs r out h m
    injection h with h
    subst h
    exact Or.inl rfl
  | cons s rest ih =>
    intro calcs r out h m
    obtain ⟨v, hv, hcase⟩ := updateAssets_cons_inv cb fetched s rest calcs r out h
    rcases hcase with ⟨c, d, hc, hd, hrec⟩ | ⟨e, hc, hcr, hspl, hrec⟩ |
      ⟨c, d, hc, hcr, hd, hrec⟩
    · rcases ih _ _ _ hrec m with h1 | h2 | h3
      · by_cases hm : m = s.mint
        · subst hm
          refine Or.inr (Or.inl ⟨⟨c.kind, c.ident, d⟩, ?_, hd⟩)
          rw [h1]
          simp [upd]
        · rw [h1]
          exact Or.inl (by simp [upd, hm])
      · exact Or.inr (Or.inl h2)
      · obtain ⟨hnone, hA⟩ := h3
        by_cases hm : m = s.mint
        · subst hm
          rw [upd] at hA
          simp at hA
        · rw [upd] at hA
          simp only [if_neg hm] at hA
          exact Or.inr (Or.inr ⟨hnone, hA⟩)
    · rcases ih _ _ _ hrec m with h1 | h2 | h3
      · by_cases hm : m = s.mint
        · subst hm
          rw [h1]
          exact Or.inr (Or.inr ⟨by simp [upd], hc⟩)
        · rw [h1]
          exact Or.inl (by simp [upd, hm])
      · exact Or.inr (Or.inl h2)
      · obtain ⟨hnone, hA⟩ := h3
        by_cases hm : m = s.mint
        · subst hm
          exact Or.inr (Or.inr ⟨hnone, hc⟩)
        · rw [upd] at hA
          simp only [if_neg hm] at hA
          exact Or.inr (Or.inr ⟨hnone, hA⟩)
    · rcases ih _ _ _ hrec m with h1 | h2 | h3
      · by_cases hm : m = s.mint
        · subst hm
          refine Or.inr (Or.inl ⟨⟨c.kind, c.ident, d⟩, ?_, hd⟩)
          rw [h1]
          simp [upd]
        · rw [h1]
          exact Or.inl (by simp [upd, hm])
      · exact Or.inr (Or.inl h2)
      · obtain ⟨hnone, hA⟩ := h3
        by_cases hm : m = s.mint
        · subst hm
          rw [upd] at hA
          simp at hA
        · rw [upd] at hA
          simp only [if_neg hm] at hA
          exact Or.inr (Or.inr ⟨hnone, hA⟩)

/-- Coherence of the final registry at listed assets: each listed asset's
final entry is either a freshly refreshed Calculator, or absent because the
asset's calculator creation fails with `MissingSplData`. -/
theorem updateAssets_coherent (cb : Collab) (fetched : Fetched) :
    ∀ (assets : List LstState) (calcs : Mint → Option UCalc)
      (r : Mint → Option Nat) out,
      updateAssets cb fetched assets calcs r = .ok out →
      ∀ s ∈ assets,
        (∀ c, out.1 s.mint = some c → refreshedOk cb fetched c) ∧
        (out.1 s.mint = none →
          ∃ e, cb.createCalc s = .error e ∧ e.isMissingSplData = true) := by
  intro assets
  induction assets with
  | nil => intro calcs r out _ s hs; exact absurd hs (by simp)
  | cons s₀ rest ih =>
    intro calcs r out h s hs
    obtain ⟨v, hv, hcase⟩ :=
      updateAssets_cons_inv cb fetched s₀ rest calcs r out h
    rcases List.mem_cons.mp hs with rfl | hs'
    · rcases hcase with ⟨c, d, hc, hd, hrec⟩ | ⟨e, hc, hcr, hspl, hrec⟩ |
        ⟨c, d, hc, hcr, hd, hrec⟩
      · rcases updateAssets_registry_tri cb fetched rest _ _ out hrec s.mint
          with h1 | h2 | h3
        · constructor
          · intro c' hc'
            rw [h1] at hc'
            simp only [upd, if_pos rfl] at hc'
            injection hc' with hc'
            exact hc' ▸ hd
          · intro hn
            rw [h1] at hn
            simp [upd] at hn
        · obtain ⟨c', hc', href⟩ := h2
          constructor
          · intro c'' hc''
            rw [hc'] at hc''
            injection hc'' with hc''
            exact hc'' ▸ href
          · intro hn
            rw [hc'] at hn
            exact absurd hn (by simp)
        · obtain ⟨_, hA⟩ := h3
          rw [upd] at hA
          simp at hA
      · rcases updateAssets_registry_tri cb fetched rest _ _ out hrec s.mint
          with h1 | h2 | h3
        · constructor
          · intro c' hc'
            rw [h1] at hc'
            simp [upd] at hc'
          · intro _
            exact ⟨e, hcr, hspl⟩
        · obtain ⟨c', hc', href⟩ := h2
          constructor
          · intro c'' hc''
            rw [hc'] at hc''
            injection hc'' with hc''
            exact hc'' ▸ href
          · intro hn
            rw [hc'] at hn
            exact absurd hn (by simp)
        · exact ⟨fun c' hc' => absurd (h3.1 ▸ hc') (by simp),
            fun _ => ⟨e, hcr, hspl⟩⟩
      · rcases updateAssets_registry_tri cb fetched rest _ _ out hrec s.mint
          with h1 | h2 | h3
        · constructor
          · intro c' hc'
            rw [h1] at hc'
            simp only [upd, if_pos rfl] at hc'
            injection hc' with hc'
            exact hc' ▸ hd
          · intro hn
            rw [h1] at hn
            simp [upd] at hn
        · obtain ⟨c', hc', href⟩ := h2
          constructor
          · intro c'' hc''
            rw [hc'] at hc''
            injection hc'' with hc''
            exact hc'' ▸ href
          · intro hn
            rw [hc'] at hn
            exact absurd hn (by simp)
        · obtain ⟨_, hA⟩ := h3
          rw [upd] at hA
          simp at hA
    · rcases hcase with ⟨c, d, hc, hd, hrec⟩ | ⟨e, hc, hcr, hspl, hrec⟩ |
        ⟨c, d, hc, hcr, hd, hrec⟩
      · exact ih _ _ _ hrec s hs'
      · exact ih _ _ _ hrec s hs'
      · exact ih _ _ _ hrec s hs'

/-- Fixpoint: a registry coherent at every listed asset passes the
per-asset stage unchanged, with the reserves folded as usual. -/
theorem updateAssets_fixpoint (cb : Collab) (fetched : Fetched) :
    ∀ (assets : List LstState) (calcs : Mint → Option UCalc),
      (∀ s ∈ assets,
        (∀ c, calcs s.mint = some c → refreshedOk cb fetched c) ∧
        (calcs s.mint = none →
          ∃ e, cb.createCalc s = .error e ∧ e.isMissingSplData = true)) →
      (∀ s ∈ assets, ∃ v, cb.reserveVal s fetched = .ok v) →
      ∀ r, updateAssets cb fetched assets calcs r =
        .ok (calcs, resFold cb fetched assets r) := by
  intro assets
  induction assets with
  | nil => intro calcs _ _ r; rfl
  | cons s rest ih =>
    intro calcs hcoh hrv r
    obtain ⟨v, hv⟩ := hrv s (List.mem_cons_self _ _)
    have hcoh' := fun s' hs' => hcoh s' (List.mem_cons_of_mem _ hs')
    have hrv' := fun s' hs' => hrv s' (List.mem_cons_of_mem _ hs')
    have hres : resFold cb fetched (s :: rest) r =
        resFold cb fetched rest (upd r s.mint (some v)) := by
      simp [resFold, hv]
    cases hc : calcs s.mint with
    | some c =>
      have hd : refreshSvc cb fetched c.kind c.ident = .ok c.data :=
        (hcoh s (List.mem_cons_self _ _)).1 c hc
      have hupd : upd calcs s.mint (some ⟨c.kind, c.ident, c.data⟩) = calcs := by
        funext m
        by_cases hm : m = s.mint
        · subst hm
          rw [hc]
          simp [upd]
        · simp [upd, hm]
      rw [hres]
      calc updateAssets cb fetched (s :: rest) calcs r
          = updateAssets cb fetched rest
              (upd calcs s.mint (some ⟨c.kind, c.ident, c.data⟩))
              (upd r s.mint (some v)) := by
            simp [updateAssets, hv, hc, hd]
        _ = updateAssets cb fetched rest calcs (upd r s.mint (some v)) := by
            rw [hupd]
        _ = .ok (calcs, resFold cb fetched rest (upd r s.mint (some v))) :=
            ih calcs hcoh' hrv' _
    | none =>
      obtain ⟨e, hcr, hspl⟩ := (hcoh s (List.mem_cons_self _ _)).2 hc
      have hupd : upd calcs s.mint none = calcs := by
        funext m
        by_cases hm : m = s.mint
        · subst hm
          rw [hc]
          simp [upd]
        · simp [upd, hm]
      rw [hres]
      calc updateAssets cb fetched (s :: rest) calcs r
          = updateAssets cb fetched rest (upd calcs s.mint none)
              (upd r s.mint (some v)) := by
            simp [updateAssets, hv, hc, hcr, hspl]
        _ = updateAssets cb fetched rest calcs (upd r s.mint (some v)) := by
            rw [hupd]
        _ = .ok (calcs, resFold cb fetched rest (upd r s.mint (some v))) :=
            ih calcs hcoh' hrv' _

/-- C6: `update` is idempotent — whenever it succeeds, applying it a second
time with the same fetched account map succeeds and leaves the pool
descriptor, asset-list bytes, LP supply, pricing state, Calculator Registry
and reserves exactly as after the first application. -/
theorem update_idempotent (cb : Collab) (fetched : Fetched)
    (st st₁ : InfState) (h : update cb fetched st = .ok st₁) :
    update cb fetched st₁ = .ok st₁ := by
  simp only [update] at h
  cases hb : fetched POOL_STATE_ID with
  | none => simp only [getAcc, hb] at h; exact absurd h (by simp)
  | some b =>
    simp only [getAcc, hb] at h
    cases hp : cb.parsePool b with
    | none => simp only [hp] at h; exact absurd h (by simp)
    | some p =>
      simp only [hp] at h
      cases hl : fetched LST_STATE_LIST_ID with
      | none => simp only [hl] at h; exact absurd h (by simp)
      | some lb =>
        simp only [hl] at h
        cases hm : fetched p.lpTokenMint with
        | none => simp only [hm] at h; exact absurd h (by simp)
        | some sb =>
          simp only [hm] at h
          cases hs : cb.parseSupply sb with
          | none => simp only [hs] at h; exact absurd h (by simp)
          | some n =>
            simp only [hs] at h
            cases hll : cb.parseLstList lb with
            | none => simp only [hll] at h; exact absurd h (by simp)
            | some states =>
              simp only [hll] at h
              cases hpr : cb.pricingUpdate st.pricingTag
                  (states.map LstState.mint) fetched with
              | error e => simp only [hpr] at h; exact absurd h (by simp)
              | ok pdata =>
                simp only [hpr] at h
                cases hua : updateAssets cb fetched states st.lstCalcs
                    st.lstReserves with
                | error e => simp only [hua] at h; exact absurd h (by simp)
                | ok cr =>
                  simp only [hua] at h
                  injection h with h
                  subst h
                  have hcoh := updateAssets_coherent cb fetched states
                    st.lstCalcs st.lstReserves cr hua
                  have hrv := updateAssets_rv_ok cb fetched states
                    st.lstCalcs st.lstReserves cr hua
                  have hfix := updateAssets_fixpoint cb fetched states cr.1
                    (fun s hsm => hcoh s hsm) hrv cr.2
                  have hr2 : resFold cb fetched states cr.2 = cr.2 := by
                    have := updateAssets_reserves_eq cb fetched states
                      st.lstCalcs st.lstReserves cr hua
                    rw [this, resFold_idem]
                  simp only [update, getAcc, hb, hp, hl, hm, hs, hll, hpr,
                    hua]
                  rw [hfix, hr2]

/-- Witness for C6 at concrete inputs: a complete fetched map and trivial
parsers make `update` succeed, and re-applying it to the produced state
yields the same state. -/
theorem update_idempotent_witness :
    update
      ⟨fun _ => some ⟨INF_MINT_ADDR, []⟩, fun _ => some [], fun _ => some 42,
       fun _ _ _ => .ok [], fun _ _ => [], fun _ _ => .ok 1,
       fun s => .error (.missingSplData s.mint), fun _ _ => [],
       fun _ _ _ => some []⟩
      (fun _ => some [0])
      ⟨⟨INF_MINT_ADDR, []⟩, [0], 42, .flatFee, [], fun _ => none,
        fun _ => none⟩ =
      .ok ⟨⟨INF_MINT_ADDR, []⟩, [0], 42, .flatFee, [], fun _ => none,
        fun _ => none⟩ :=
  update_idempotent
    ⟨fun _ => some ⟨INF_MINT_ADDR, []⟩, fun _ => some [], fun _ => some 42,
     fun _ _ _ => .ok [], fun _ _ => [], fun _ _ => .ok 1,
     fun s => .error (.missingSplData s.mint), fun _ _ => [],
     fun _ _ _ => some []⟩
    (fun _ => some [0])
    ⟨⟨WSOL_MINT_ADDR, [9]⟩, [7], 0, .flatFee, [3], fun _ => none,
      fun _ => none⟩
    ⟨⟨INF_MINT_ADDR, []⟩, [0], 42, .flatFee, [], fun _ => none,
      fun _ => none⟩
    rfl

/-! ## C7: allowlisted mints bypass the staleness gate -/

/-- C7: the pool's own LP mint (INF), the wrapped-native mint (wSOL) and the
Marinade mSOL mint are classified as not epoch-affected, so for any quote
between mints of this allowlist the staleness gate is skipped entirely and
the quote is exactly the trade engine's post-processed result, for every
registry and every value of the shared epoch counter — quoting never fails
due to staleness for them. -/
theorem quote_allowlist_never_stale (st : QuoteState)
    (engine : Mint → Mint → Nat → TradeLimitTy → Except QErr (Mint × RawQuote))
    (inp out : Mint) (amount : Nat) (mode : SwapMode)
    (hin : inp ∈ [INF_MINT_ADDR, WSOL_MINT_ADDR, MSOL_MINT_ADDR])
    (hout : out ∈ [INF_MINT_ADDR, WSOL_MINT_ADDR, MSOL_MINT_ADDR]) :
    is_epoch_affected_lst_mint inp = false ∧
    is_epoch_affected_lst_mint out = false ∧
    quote st engine inp out amount mode =
      match engine inp out amount (swap_mode_to_trade_limit_ty mode) with
      | .error e => .error e
      | .ok p => to_jup_quote p.1 p.2 := by
  have hfalse : ∀ m ∈ [INF_MINT_ADDR, WSOL_MINT_ADDR, MSOL_MINT_ADDR],
      is_epoch_affected_lst_mint m = false := by
    intro m hm
    simp only [List.mem_cons, List.mem_singleton, List.not_mem_nil] at hm
    rcases hm with h | h | h | h
    · simp [is_epoch_affected_lst_mint, h]
    · simp [is_epoch_affected_lst_mint, h]
    · simp [is_epoch_affected_lst_mint, h]
    · exact absurd h (by simp)
  refine ⟨hfalse inp hin, hfalse out hout, ?_⟩
  exact quote_of_gate_ok st engine inp out amount mode
    (check_epoch_mint_not_affected st inp (hfalse inp hin))
    (check_epoch_mint_not_affected st out (hfalse out hout))

/-- Witness for C7 at concrete inputs: a quote between INF and wSOL with an
empty registry, epoch counter 5, and an engine that always answers, returns
the engine's post-processed answer and never a staleness error. -/
theorem quote_allowlist_never_stale_witness :
    INF_MINT_ADDR ∈ [INF_MINT_ADDR, WSOL_MINT_ADDR, MSOL_MINT_ADDR] ∧
    WSOL_MINT_ADDR ∈ [INF_MINT_ADDR, WSOL_MINT_ADDR, MSOL_MINT_ADDR] ∧
    (is_epoch_affected_lst_mint INF_MINT_ADDR = false ∧
     is_epoch_affected_lst_mint WSOL_MINT_ADDR = false ∧
     quote ⟨fun _ => none, 5⟩
        (fun _ _ _ _ => .error (.engineErr 0))
        INF_MINT_ADDR WSOL_MINT_ADDR 1000 .exactIn =
      match (fun (_ : Mint) (_ : Mint) (_ : Nat) (_ : TradeLimitTy) =>
          (.error (.engineErr 0) : Except QErr (Mint × RawQuote)))
          INF_MINT_ADDR WSOL_MINT_ADDR 1000
          (swap_mode_to_trade_limit_ty .exactIn) with
      | .error e => .error e
      | .ok p => to_jup_quote p.1 p.2) :=
  ⟨by decide, by decide,
   quote_allowlist_never_stale ⟨fun _ => none, 5⟩
     (fun _ _ _ _ => .error (.engineErr 0))
     INF_MINT_ADDR WSOL_MINT_ADDR 1000 .exactIn (by decide) (by decide)⟩

/-! ## C5: fee post-processing of `to_jup_quote` -/

/-- C5: for every successful quote conversion, `fee_amount` is the
saturating sum of the LP and protocol fees, and the fee percentage is
`fee_amount` divided by the input amount when the fee is denominated in the
input mint, else by the saturating sum of the output amount and
`fee_amount`; the conversion fails with the distinct percentage-conversion
error exactly when that denominator is zero (the non-finite `f64` case);
and on the concrete example `lp_fee = 100`, `protocol_fee = 50`, fee in the
output mint, `out_amount = 10000`, the fee amount is `150`, the denominator
`10150`, and the percentage `150 / 10150 ≈ 0.014778`. -/
theorem to_jup_quote_fee_spec (feeMint : Mint) (q : RawQuote) :
    (∀ j, to_jup_quote feeMint q = .ok j →
      j.feeAmount = satAdd q.lpFee q.protocolFee ∧
      j.inAmount = q.inp ∧ j.outAmount = q.out ∧
      j.feePct = (j.feeAmount : ℚ) /
        ((if feeMint = q.inpMint then q.inp
          else satAdd q.out j.feeAmount : Nat) : ℚ)) ∧
    (to_jup_quote feeMint q = .error .decimalErr ↔
      (if feeMint = q.inpMint then q.inp
       else satAdd q.out (satAdd q.lpFee q.protocolFee)) = 0) ∧
    (q.lpFee = 100 → q.protocolFee = 50 → feeMint ≠ q.inpMint →
      q.out = 10000 →
      satAdd q.lpFee q.protocolFee = 150 ∧
      satAdd q.out (satAdd q.lpFee q.protocolFee) = 10150 ∧
      ∀ j, to_jup_quote feeMint q = .ok j →
        j.feeAmount = 150 ∧
        j.feePct = (150 : ℚ) / 10150 ∧
        (14778 : ℚ) / 1000000 < j.feePct ∧
        j.feePct < (14779 : ℚ) / 1000000) := by
  refine ⟨?_, ?_, ?_⟩
  · intro j hj
    by_cases hz : (if feeMint = q.inpMint then q.inp
        else satAdd q.out (satAdd q.lpFee q.protocolFee)) = 0
    · simp only [to_jup_quote, hz] at hj
      simp at hj
    · simp only [to_jup_quote] at hj
      rw [if_neg hz] at hj
      cases hj
      refine ⟨rfl, rfl, rfl, rfl⟩
  · constructor
    · intro h
      by_contra hz
      simp only [to_jup_quote] at h
      rw [if_neg hz] at h
      simp at h
    · intro hz
      simp only [to_jup_quote, hz]
      simp
  · intro hlp hpr hfm hout
    have h150 : satAdd q.lpFee q.protocolFee = 150 := by
      rw [hlp, hpr]; decide
    have h10150 : satAdd q.out 150 = 10150 := by
      rw [hout]; decide
    refine ⟨h150, by rw [h150]; exact h10150, ?_⟩
    intro j hj
    simp only [to_jup_quote, if_neg hfm, h150, h10150] at hj
    rw [if_neg (by norm_num : ¬((10150 : Nat) = 0))] at hj
    cases hj
    refine ⟨rfl, by norm_num, by norm_num, by norm_num⟩

/-- Witness for C5 at a concrete raw quote: fee in the output mint,
`lp_fee = 100`, `protocol_fee = 50`, `in_amount = 9990`,
`out_amount = 10000`. -/
theorem to_jup_quote_fee_spec_witness :
    ∀ j, to_jup_quote WSOL_MINT_ADDR
        ⟨9990, 10000, 100, 50, INF_MINT_ADDR, WSOL_MINT_ADDR⟩ = .ok j →
      j.feeAmount = 150 ∧
      j.feePct = (150 : ℚ) / 10150 ∧
      (14778 : ℚ) / 1000000 < j.feePct ∧
      j.feePct < (14779 : ℚ) / 1000000 :=
  ((to_jup_quote_fee_spec WSOL_MINT_ADDR
      ⟨9990, 10000, 100, 50, INF_MINT_ADDR, WSOL_MINT_ADDR⟩).2.2
    rfl rfl (by decide) rfl).2.2

/-! ## C9: unparseable asset list in `get_accounts_to_update` -/

/-- C9: when the stored asset-list bytes cannot be parsed,
`get_accounts_to_update` neither errs nor panics: it treats the asset list
as empty, returning exactly the three fixed addresses followed by the
pricing scheme's refresh addresses over an empty mint set, with no
per-asset contributions. -/
theorem get_accounts_to_update_unparseable (cb : Collab) (st : InfState)
    (h : cb.parseLstList st.lstStateListData = none) :
    get_accounts_to_update cb st =
      [POOL_STATE_ID, LST_STATE_LIST_ID, st.pool.lpTokenMint]
        ++ cb.pricingAccs st.pricingTag [] := by
  simp [get_accounts_to_update, h]

/-- Witness for C9: a state whose asset-list bytes fail to parse under a
concrete collaborator bundle yields just the fixed addresses plus the
pricing refresh addresses over the empty mint set. -/
theorem get_accounts_to_update_unparseable_witness :
    get_accounts_to_update
      ⟨fun _ => none, fun _ => none, fun _ => none,
       fun _ _ _ => .ok [], fun _ _ => [[7]], fun _ _ => .ok 0,
       fun _ => .error (.otherErr 0), fun _ _ => [], fun _ _ _ => none⟩
      ⟨⟨INF_MINT_ADDR, []⟩, [1, 2, 3], 0, .flatFee, [],
       fun _ => none, fun _ => none⟩ =
      [POOL_STATE_ID, LST_STATE_LIST_ID, INF_MINT_ADDR] ++ [[7]] :=
  get_accounts_to_update_unparseable _ _ rfl

end Inf
